import Mathlib

/-!
Verification of the Sokoban A* solver repository.

This file shallowly embeds the repository's Python code:
  * `a_star.py`   — the generic A* engine (`AStarSolver.solve`, `Node`,
    `AStarMetrics`, `_extract_solution`, `_remove_from_frontier`, `_f`);
  * `sokoban.py`  — the Sokoban state space (`SokobanState`, `SokobanProblem`
    with `_parse_level`, `actions`, `result`, `is_goal`);
  * `heuristics.py` — the three heuristic estimators.

Modelling conventions:
  * Machine floats used only as counters/cost accumulators (`g`, step cost
    `1.0`) are modelled as `Nat`; `avg_branching_factor` (a true float ratio)
    is modelled as `Rat`; heuristic values (which can be `float('inf')` when
    a box exists but no goal does) are modelled as `WithTop Nat`.
  * Wall-clock time is modelled by a `clock : Nat → Bool` oracle consulted
    once per loop iteration (`time.time() - start_time > timeout`), with the
    iteration counter `ticks` standing in for elapsed seconds in
    `total_time`.  All theorems quantify over every oracle.
  * The `heapq` priority queue is modelled as a list whose push appends and
    whose pop removes a minimum-key element (key: the Python tuple order on
    `(f, node)`, i.e. `f` then `Node.__lt__` on `g`, with the earliest such
    element chosen — a deterministic stable tie-break; `heapq` guarantees a
    minimum is returned and every claim below is insensitive to which
    minimum ties to the front).  `_remove_from_frontier` swaps in the last
    element and re-heapifies, which as a collection operation removes the
    (unique, by the maintained index invariant) entry of the given state;
    it is modelled by removing the first entry with that state.
  * Python `while`-loop execution is modelled with explicit fuel; a run that
    returns `some` corresponds to a terminating Python call.
  * `SearchState.popped` is a ghost trace (the states popped from the
    frontier, in order) used only to state properties; no code branches on it.
  * The per-run mutable `self.metrics` is passed explicitly: `solveFrom m0`
    is a call of `solve` when `self.metrics` currently holds `m0`;
    `AStarSolver.__init__` sets `m0 = default`.
-/

/-- Metrics record, mirroring the `AStarMetrics` dataclass of `a_star.py`
(field for field; `total_time` counts loop iterations in place of seconds). -/
structure AStarMetrics where
  nodes_expanded : Nat := 0
  nodes_generated : Nat := 0
  max_frontier_size : Nat := 0
  max_memory_nodes : Nat := 0
  total_time : Nat := 0
  solution_length : Nat := 0
  success : Bool := false
  timeout : Bool := false
  avg_branching_factor : Rat := 0
deriving DecidableEq, Repr

/-- Search-tree node, mirroring class `Node` of `a_star.py`: a state, an
optional parent link, the action that produced it (optional), and the
accumulated path cost `g` (`cost + parent.g`, computed at the creation
sites). -/
inductive Node (σ α : Type) : Type where
  | mk (state : σ) (parent : Option (Node σ α)) (action : Option α) (g : Nat)

/-- The `state` attribute of a node. -/
def Node.state {σ α : Type} : Node σ α → σ
  | .mk s _ _ _ => s

/-- The accumulated path cost `g` of a node. -/
def Node.g {σ α : Type} : Node σ α → Nat
  | .mk _ _ _ g => g

/-- The problem interface consumed by `AStarSolver.solve`
(`get_initial_state`, `goal_test`, `actions`, `result`). -/
structure Problem (σ α : Type) where
  init : σ
  goal_test : σ → Bool
  actions : σ → List α
  result : σ → α → σ × Nat

/-- Return value of `solve`: the `(solution_path, solution_actions, metrics)`
triple. -/
structure SolveReturn (σ α : Type) where
  path : Option (List σ)
  actions : Option (List α)
  metrics : AStarMetrics

/-- The local state of one `solve` call: the heap `frontier`, the
`frontier_states` index (state ↦ best `(g, f)` in the frontier), the
`explored` set, the `branching_factors` list, the metrics record, the
iteration count (`ticks`, standing in for elapsed time) and the ghost trace
`popped` of states popped from the frontier. -/
structure SearchState (σ α : Type) where
  frontier : List (WithTop Nat × Node σ α)
  frontierStates : List (σ × Nat × WithTop Nat)
  explored : Finset σ
  branching : List Nat
  metrics : AStarMetrics
  ticks : Nat
  popped : List σ

/-- Outcome of one iteration of the `while frontier:` loop: either continue
with an updated state, or return from `solve`. -/
inductive StepOut (σ α : Type) : Type where
  | next (st : SearchState σ α)
  | halt (st : SearchState σ α) (r : SolveReturn σ α)

/-- The f-value `g + h` of a node (method `_f` of `AStarSolver`). -/
def fval {σ α : Type} (h : σ → WithTop Nat) (n : Node σ α) : WithTop Nat :=
  (n.g : WithTop Nat) + h n.state

/-- Boolean comparison used to select the heap minimum: the Python tuple
order on `(f, node)` (compare `f`, then `Node.__lt__`, which compares `g`). -/
def entryLeB {σ α : Type} (a b : WithTop Nat × Node σ α) : Bool :=
  decide (a.1 < b.1) || (decide (a.1 = b.1) && decide (a.2.g ≤ b.2.g))

/-- Extract a minimum-key element from the nonempty list `x :: xs`,
returning it and the remaining elements (models `heapq.heappop`; ties keep
the earliest element). -/
def popMin1 {σ α : Type} (x : WithTop Nat × Node σ α) :
    List (WithTop Nat × Node σ α) →
      (WithTop Nat × Node σ α) × List (WithTop Nat × Node σ α)
  | [] => (x, [])
  | y :: ys =>
      let pr := popMin1 y ys
      if entryLeB x pr.1 then (x, y :: ys) else (pr.1, x :: pr.2)

/-- Look a state up in the `frontier_states` dictionary (first matching
key; keys are unique by the maintained invariant). -/
def fsLookup {σ : Type} [DecidableEq σ] :
    List (σ × Nat × WithTop Nat) → σ → Option (Nat × WithTop Nat)
  | [], _ => none
  | (s', v) :: rest, s => if s' = s then some v else fsLookup rest s

/-- Delete a key from the `frontier_states` dictionary
(`del frontier_states[state]`). -/
def fsErase {σ : Type} [DecidableEq σ] :
    List (σ × Nat × WithTop Nat) → σ → List (σ × Nat × WithTop Nat)
  | [], _ => []
  | (s', v) :: rest, s => if s' = s then rest else (s', v) :: fsErase rest s

/-- Write a key in the `frontier_states` dictionary
(`frontier_states[state] = (g, f)`): update in place if present, else
append. -/
def fsSet {σ : Type} [DecidableEq σ] :
    List (σ × Nat × WithTop Nat) → σ → Nat × WithTop Nat →
      List (σ × Nat × WithTop Nat)
  | [], s, v => [(s, v)]
  | (s', v') :: rest, s, v =>
      if s' = s then (s, v) :: rest else (s', v') :: fsSet rest s v

/-- Remove the first frontier entry whose node holds the given state (the
collection-level effect of `_remove_from_frontier`'s swap-and-reheapify). -/
def removeFirstByState {σ α : Type} [DecidableEq σ] :
    List (WithTop Nat × Node σ α) → σ → List (WithTop Nat × Node σ α)
  | [], _ => []
  | e :: rest, s =>
      if e.2.state = s then rest else e :: removeFirstByState rest s

/-- Method `_remove_from_frontier`: scan the heap for an entry with the
given state; when found, excise it and delete the state from
`frontier_states`; when absent, change nothing. -/
def remove_from_frontier {σ α : Type} [DecidableEq σ]
    (fr : List (WithTop Nat × Node σ α)) (fs : List (σ × Nat × WithTop Nat))
    (s : σ) :
    List (WithTop Nat × Node σ α) × List (σ × Nat × WithTop Nat) :=
  if fr.any (fun e => decide (e.2.state = s)) then
    (removeFirstByState fr s, fsErase fs s)
  else (fr, fs)

/-- Turn the optional action of a node into the list of actions it
contributes during path reconstruction (the `if current.action:` check;
for this program actions are nonempty strings, so Python truthiness
coincides with being non-`None`). -/
def actionContrib {α : Type} : Option α → List α
  | none => []
  | some a => [a]

/-- Method `_extract_solution`: walk parent links from the goal node to the
root collecting states and actions, then reverse both lists.  The
reversed walk is expressed directly as structural recursion from the root
outward. -/
def extractSolution {σ α : Type} : Node σ α → List σ × List α
  | .mk s none a _ => ([s], actionContrib a)
  | .mk s (some p) a _ =>
      let pr := extractSolution p
      (pr.1 ++ [s], pr.2 ++ actionContrib a)

/-- Body of the `for action in actions:` loop of `solve` (lines 115-141 of
`a_star.py`): generate the successor, count it, skip it if explored,
otherwise insert it into / update it in the frontier as appropriate. -/
def processAction {σ α : Type} [DecidableEq σ] (P : Problem σ α)
    (h : σ → WithTop Nat) (node : Node σ α) (st : SearchState σ α) (a : α) :
    SearchState σ α :=
  let rc := P.result node.state a
  let childState := rc.1
  let childNode : Node σ α := .mk childState (some node) (some a) (rc.2 + node.g)
  let st1 := { st with metrics :=
    { st.metrics with nodes_generated := st.metrics.nodes_generated + 1 } }
  if childState ∈ st1.explored then st1
  else
    let childF := fval h childNode
    match fsLookup st1.frontierStates childState with
    | some gf =>
        if childNode.g < gf.1 then
          let rm := remove_from_frontier st1.frontier st1.frontierStates childState
          { st1 with
            frontier := rm.1 ++ [(childF, childNode)],
            frontierStates := fsSet rm.2 childState (childNode.g, childF) }
        else st1
    | none =>
        let fr1 := st1.frontier ++ [(childF, childNode)]
        { st1 with
          frontier := fr1,
          frontierStates := fsSet st1.frontierStates childState (childNode.g, childF),
          metrics := { st1.metrics with
            max_frontier_size := max st1.metrics.max_frontier_size fr1.length } }

/-- One iteration of the `while frontier:` loop of `solve` (lines 79-141 of
`a_star.py`): exhaustion return, timeout return, memory watermark, pop of a
minimum-f node, goal test with solution extraction, explored insertion and
successor generation. -/
def stepSearch {σ α : Type} [DecidableEq σ] (P : Problem σ α)
    (h : σ → WithTop Nat) (clock : Nat → Bool) (st : SearchState σ α) :
    StepOut σ α :=
  match st.frontier with
  | [] =>
      let m := { st.metrics with total_time := st.ticks }
      StepOut.halt { st with metrics := m } ⟨none, none, m⟩
  | e :: rest0 =>
      if clock st.ticks then
        let m := { st.metrics with timeout := true, total_time := st.ticks }
        StepOut.halt { st with metrics := m } ⟨none, none, m⟩
      else
        let memNow := (e :: rest0).length + st.explored.card
        let mMem := { st.metrics with
          max_memory_nodes := max st.metrics.max_memory_nodes memNow }
        let pr := popMin1 e rest0
        let node := pr.1.2
        let rest := pr.2
        let fs1 := fsErase st.frontierStates node.state
        let m1 := { mMem with nodes_expanded := mMem.nodes_expanded + 1 }
        let popped1 := st.popped ++ [node.state]
        if P.goal_test node.state then
          let sol := extractSolution node
          let m2 := { m1 with
            success := true,
            total_time := st.ticks,
            solution_length := sol.2.length,
            avg_branching_factor :=
              if st.branching.isEmpty then m1.avg_branching_factor
              else (st.branching.sum : Rat) / (st.branching.length : Rat) }
          let stHalt : SearchState σ α :=
            { st with
              frontier := rest, frontierStates := fs1,
              metrics := m2, popped := popped1 }
          StepOut.halt stHalt ⟨some sol.1, some sol.2, m2⟩
        else
          let explored1 := insert node.state st.explored
          let acts := P.actions node.state
          let branching1 := st.branching ++ [acts.length]
          let stMid : SearchState σ α :=
            { frontier := rest, frontierStates := fs1, explored := explored1,
              branching := branching1, metrics := m1, ticks := st.ticks,
              popped := popped1 }
          let stEnd := acts.foldl (processAction P h node) stMid
          StepOut.next { stEnd with ticks := stEnd.ticks + 1 }

/-- Initialization of `solve` (lines 58-77 of `a_star.py`): push the root
node, seed `frontier_states`, set up the explored set and the metrics
fields that `solve` assigns on entry. -/
def initSearch {σ α : Type} [DecidableEq σ] (P : Problem σ α)
    (h : σ → WithTop Nat) (m0 : AStarMetrics) : SearchState σ α :=
  let initialNode : Node σ α := .mk P.init none none 0
  { frontier := [(fval h initialNode, initialNode)],
    frontierStates := [(P.init, (0, fval h initialNode))],
    explored := ∅,
    branching := [],
    metrics := { m0 with nodes_generated := 1, max_frontier_size := 1,
                         max_memory_nodes := 1 },
    ticks := 0,
    popped := [] }

/-- Run the search loop for at most `fuel` iterations, returning the final
internal state together with the returned triple; `none` means the fuel ran
out before the Python loop would have returned. -/
def solveAux {σ α : Type} [DecidableEq σ] (P : Problem σ α)
    (h : σ → WithTop Nat) (clock : Nat → Bool) :
    Nat → SearchState σ α → Option (SearchState σ α × SolveReturn σ α)
  | 0, _ => none
  | fuel + 1, st =>
      match stepSearch P h clock st with
      | .halt st' r => some (st', r)
      | .next st' => solveAux P h clock fuel st'

/-- A call of `AStarSolver.solve` whose `self.metrics` currently holds
`m0`, exposing the final internal search state alongside the returned
triple. -/
def solveFrom {σ α : Type} [DecidableEq σ] (P : Problem σ α)
    (h : σ → WithTop Nat) (clock : Nat → Bool) (fuel : Nat)
    (m0 : AStarMetrics) : Option (SearchState σ α × SolveReturn σ α) :=
  solveAux P h clock fuel (initSearch P h m0)

/-- The returned `(path, actions, metrics)` triple of a `solve` call on a
freshly constructed `AStarSolver` (whose `__init__` set
`self.metrics = AStarMetrics()`). -/
def solve {σ α : Type} [DecidableEq σ] (P : Problem σ α)
    (h : σ → WithTop Nat) (clock : Nat → Bool) (fuel : Nat) :
    Option (SolveReturn σ α) :=
  (solveFrom P h clock fuel {}).map (fun pr => pr.2)

/-- The internal search state at the head of iteration `k + 1` of the loop
(i.e. after `k` completed non-returning iterations); `none` once the loop
has returned within the first `k` iterations. -/
def iterateSearch {σ α : Type} [DecidableEq σ] (P : Problem σ α)
    (h : σ → WithTop Nat) (clock : Nat → Bool) :
    Nat → SearchState σ α → Option (SearchState σ α)
  | 0, st => some st
  | k + 1, st =>
      match stepSearch P h clock st with
      | .next st' => iterateSearch P h clock k st'
      | .halt _ _ => none

/-- Apply an action sequence in order from a state via `result` (the
replay of a returned solution). -/
def runActions {σ α : Type} (P : Problem σ α) : σ → List α → σ
  | s, [] => s
  | s, a :: rest => runActions P (P.result s a).1 rest

/-- The state sequence visited when applying an action sequence in order
from a state (starts with the state itself). -/
def statesAlong {σ α : Type} (P : Problem σ α) : σ → List α → List σ
  | s, [] => [s]
  | s, a :: rest => s :: statesAlong P (P.result s a).1 rest

/-- The nodes actually created by `solve`: the root node of the initial
state, and child nodes built from a parent by one `result` step with the
producing action and cost recorded (`Node(child_state, node, action,
step_cost)`). -/
inductive ValidNode {σ α : Type} (P : Problem σ α) : Node σ α → Prop where
  | root : ValidNode P (.mk P.init none none 0)
  | child {n : Node σ α} (a : α) (hn : ValidNode P n) :
      ValidNode P (.mk (P.result n.state a).1 (some n) (some a)
        ((P.result n.state a).2 + n.g))

/- ------------------------------------------------------------------ -/
/- Sokoban state space (`sokoban.py`)                                  -/
/- ------------------------------------------------------------------ -/

/-- Grid positions are `(row, column)` integer pairs. -/
abbrev Pos : Type := Int × Int

/-- Class `SokobanState` of `sokoban.py`.  Hashing and equality use only
`(boxes, player)`; `walls` and `goals` are carried on every Python state but
never change across `result` (which copies them), so they live on the
problem instance here, exactly as the search engine observes states. -/
structure SokobanState where
  boxes : Finset Pos
  player : Pos
deriving DecidableEq

/-- The four Sokoban actions (the strings `'UP'`, `'DOWN'`, `'LEFT'`,
`'RIGHT'` of `sokoban.py`). -/
inductive SokAction : Type where
  | UP | DOWN | LEFT | RIGHT
deriving DecidableEq, Repr

/-- Direction vector of an action (the tuples paired with each action in
`actions` and `dir_map` in `result`). -/
def dirOf : SokAction → Int × Int
  | .UP => (-1, 0)
  | .DOWN => (1, 0)
  | .LEFT => (0, -1)
  | .RIGHT => (0, 1)

/-- Method `SokobanProblem.actions`: a direction is legal unless the
player's destination is a wall, or it holds a box whose own destination is
a wall or another box; legal actions are listed in the fixed order UP,
DOWN, LEFT, RIGHT. -/
def sokActions (walls : Finset Pos) (s : SokobanState) : List SokAction :=
  [SokAction.UP, SokAction.DOWN, SokAction.LEFT, SokAction.RIGHT].filter
    (fun a =>
      let d := dirOf a
      let np : Pos := (s.player.1 + d.1, s.player.2 + d.2)
      if np ∈ walls then false
      else if np ∈ s.boxes then
        let nb : Pos := (np.1 + d.1, np.2 + d.2)
        !(decide (nb ∈ walls) || decide (nb ∈ s.boxes))
      else true)

/-- Method `SokobanProblem.result`: move the player one cell; if the
destination held a box, that box moves one further cell; uniform step cost
1. -/
def sokResult (s : SokobanState) (a : SokAction) : SokobanState × Nat :=
  let d := dirOf a
  let np : Pos := (s.player.1 + d.1, s.player.2 + d.2)
  let newBoxes :=
    if np ∈ s.boxes then
      insert ((np.1 + d.1, np.2 + d.2) : Pos) (s.boxes.erase np)
    else s.boxes
  (⟨newBoxes, np⟩, 1)

/-- Method `SokobanState.is_goal` / `SokobanProblem.goal_test`: all boxes on
goals, i.e. `boxes == goals`. -/
def sokIsGoal (goals : Finset Pos) (s : SokobanState) : Bool :=
  decide (s.boxes = goals)

/-- The `Problem` instance that `SokobanProblem` presents to the engine for
a level with the given walls and goals and the given initial state. -/
def sokProblem (walls goals : Finset Pos) (s0 : SokobanState) :
    Problem SokobanState SokAction :=
  { init := s0,
    goal_test := sokIsGoal goals,
    actions := sokActions walls,
    result := sokResult }

/-- Result of `SokobanProblem._parse_level` (and the fields the constructor
stores): wall, box and goal cell sets, and the player cell if one glyph set
it (`player` stays `None` otherwise). -/
structure SokobanProblemData where
  walls : Finset Pos
  boxes : Finset Pos
  player : Option Pos
  goals : Finset Pos
deriving DecidableEq

/-- Python `str.rstrip` on one line (drop trailing whitespace). -/
def pyRstrip (l : List Char) : List Char :=
  (l.reverse.dropWhile Char.isWhitespace).reverse

/-- Python `str.strip` (drop leading and trailing whitespace). -/
def pyStrip (l : List Char) : List Char :=
  ((l.dropWhile Char.isWhitespace).reverse.dropWhile Char.isWhitespace).reverse

/-- Python `str.split('\n')`. -/
def splitNewlines : List Char → List (List Char)
  | [] => [[]]
  | c :: rest =>
      match splitNewlines rest with
      | [] => [[]]
      | l :: ls => if c = '\n' then [] :: l :: ls else (c :: l) :: ls

/-- Glyph dispatch of `_parse_level` for one character at one position
(the `elif` chain, in source order). -/
def parseChar (acc : SokobanProblemData) (pos : Pos) (ch : Char) :
    SokobanProblemData :=
  if ch = '#' ∨ ch = '🧱' ∨ ch = '⬛' then
    { acc with walls := insert pos acc.walls }
  else if ch = 'B' ∨ ch = '$' ∨ ch = '📦' then
    { acc with boxes := insert pos acc.boxes }
  else if ch = 'G' ∨ ch = '.' ∨ ch = '⭐' ∨ ch = '🎯' then
    { acc with goals := insert pos acc.goals }
  else if ch = 'P' ∨ ch = '@' ∨ ch = '🧑' ∨ ch = '👷' then
    { acc with player := some pos }
  else if ch = '*' then
    { acc with boxes := insert pos acc.boxes, goals := insert pos acc.goals }
  else if ch = '+' then
    { acc with player := some pos, goals := insert pos acc.goals }
  else acc

/-- Method `SokobanProblem._parse_level`: strip the level string, split it
into lines, right-strip each line, and dispatch every character at its
`(row, column)` position. -/
def parseLevel (level_str : String) : SokobanProblemData :=
  let lines := (splitNewlines (pyStrip level_str.toList)).map pyRstrip
  lines.enum.foldl
    (fun acc rl =>
      rl.2.enum.foldl
        (fun acc cc => parseChar acc ((rl.1 : Int), (cc.1 : Int)) cc.2)
        acc)
    ⟨∅, ∅, none, ∅⟩

/-- Constructor `SokobanProblem.__init__`: parse the level and store the
parsed sets; it performs no validation, so construction always succeeds,
even with no player glyph. -/
def SokobanProblem.ofLevel (level_str : String) : SokobanProblemData :=
  parseLevel level_str

/-- The initial `SokobanState` stored by the constructor, available as a
typed state whenever a player cell exists (Python builds
`SokobanState(boxes, None, ...)` when it does not). -/
def SokobanProblemData.initialState (p : SokobanProblemData) :
    Option SokobanState :=
  p.player.map (fun pl => ⟨p.boxes, pl⟩)

/- ------------------------------------------------------------------ -/
/- Heuristics (`heuristics.py`)                                        -/
/- ------------------------------------------------------------------ -/

/-- Function `manhattan_distance` of `heuristics.py`. -/
def manhattan_distance (p q : Pos) : Nat :=
  (p.1 - q.1).natAbs + (p.2 - q.2).natAbs

/-- Function `manhattan_heuristic`: the sum over boxes of the minimum
Manhattan distance to any goal (`float('inf')`, modelled as `⊤`, when the
goal set is empty). -/
def manhattan_heuristic (state : SokobanState) (goals : Finset Pos) :
    WithTop Nat :=
  Finset.sum state.boxes
    (fun b => Finset.inf goals (fun g => ((manhattan_distance b g : Nat) : WithTop Nat)))

/-- Function `simple_count_heuristic`: the number of boxes not on goals. -/
def simple_count_heuristic (state : SokobanState) (goals : Finset Pos) : Nat :=
  (state.boxes.filter (fun b => b ∉ goals)).card

/-- The inner scan of `minimum_matching_heuristic`: the first unclaimed
goal of strictly minimal Manhattan distance from the box, with that
distance (`best_goal`/`best_dist`; `None` when no unclaimed goal exists). -/
def bestGoalFold (b : Pos) (gs : List Pos) : Option (Pos × Nat) :=
  gs.foldl
    (fun best g =>
      match best with
      | none => some (g, manhattan_distance b g)
      | some gd =>
          if manhattan_distance b g < gd.2 then some (g, manhattan_distance b g)
          else some gd)
    none

/-- Function `minimum_matching_heuristic` on the box and goal lists obtained
from the Python sets (`list(state.boxes)`, `list(goals)`; set iteration
order is an implementation detail, so theorems quantify over the lists):
each box in turn claims its nearest unclaimed goal and adds the claimed
distance; a box finding no unclaimed goal adds nothing. -/
def minimum_matching_heuristic : List Pos → List Pos → Nat
  | [], _ => 0
  | b :: bs, gs =>
      match bestGoalFold b gs with
      | none => minimum_matching_heuristic bs gs
      | some gd => gd.2 + minimum_matching_heuristic bs (gs.erase gd.1)

/- ------------------------------------------------------------------ -/
/- Concrete instances used by witnesses and counterexamples            -/
/- ------------------------------------------------------------------ -/

/-- `LEVEL_1` of `sokoban.py`. -/
def LEVEL1 : String := "\n#####\n#@$.#\n#####\n"

/-- The parsed `LEVEL_1` problem data. -/
def lvl1Data : SokobanProblemData := SokobanProblem.ofLevel LEVEL1

/-- The initial state of `LEVEL_1`. -/
def lvl1Init : SokobanState := ⟨{((1 : Int), (2 : Int))}, ((1 : Int), (1 : Int))⟩

/-- The engine problem for `LEVEL_1`. -/
def lvl1Problem : Problem SokobanState SokAction :=
  sokProblem lvl1Data.walls lvl1Data.goals lvl1Init

/-- The Manhattan heuristic closed over the `LEVEL_1` goals
(`create_heuristic("manhattan", goals)`). -/
def lvl1Heur (s : SokobanState) : WithTop Nat :=
  manhattan_heuristic s lvl1Data.goals

/-- A clock that never reports a timeout. -/
def noTimeout : Nat → Bool := fun _ => false

/-- A dead-end corridor level with a box and no goal: the search exhausts
its frontier after three expansions. -/
def CORRIDOR : String := "#####\n#@$ #\n#####"

/-- The parsed corridor problem data. -/
def corrData : SokobanProblemData := SokobanProblem.ofLevel CORRIDOR

/-- The initial state of the corridor level. -/
def corrInit : SokobanState := ⟨{((1 : Int), (2 : Int))}, ((1 : Int), (1 : Int))⟩

/-- The engine problem for the corridor level. -/
def corrProblem : Problem SokobanState SokAction :=
  sokProblem corrData.walls corrData.goals corrInit

/-- The Manhattan heuristic closed over the corridor goals (empty). -/
def corrHeur (s : SokobanState) : WithTop Nat :=
  manhattan_heuristic s corrData.goals

/- ------------------------------------------------------------------ -/
/- Specification-side definitions used by the theorems                 -/
/- ------------------------------------------------------------------ -/

/-- The state held by a frontier entry. -/
def entryState {σ α : Type} (e : WithTop Nat × Node σ α) : σ := e.2.state

/-- The average of the collected branching-factor samples
(`sum(branching_factors) / len(branching_factors)`). -/
def branchingAvg (l : List Nat) : Rat :=
  (l.sum : Rat) / (l.length : Rat)

/-- The frontier-related part of the loop invariant: frontier nodes were
really created by the search, frontier states are pairwise distinct, the
`frontier_states` index has exactly the frontier's states as keys (each
once), and no frontier state is already explored. -/
structure FrontierInv {σ α : Type} [DecidableEq σ] (P : Problem σ α)
    (st : SearchState σ α) : Prop where
  validFrontier : ∀ e ∈ st.frontier, ValidNode P e.2
  nodupFrontier : (st.frontier.map entryState).Nodup
  keysEquiv : ∀ s, (fsLookup st.frontierStates s).isSome = true ↔
    s ∈ st.frontier.map entryState
  nodupKeys : (st.frontierStates.map Prod.fst).Nodup
  disjointExplored : ∀ e ∈ st.frontier, e.2.state ∉ st.explored

/-- Invariant of the search loop, relative to the metrics `m0` held in
`self.metrics` when `solve` was called.  It holds at the head of every
iteration of the `while frontier:` loop. -/
structure EngineInv {σ α : Type} [DecidableEq σ] (P : Problem σ α)
    (m0 : AStarMetrics) (st : SearchState σ α) : Prop where
  fr : FrontierInv P st
  exploredEq : st.explored = st.popped.toFinset
  nodupPopped : st.popped.Nodup
  expandedEq : st.metrics.nodes_expanded = m0.nodes_expanded + st.popped.length
  genBound : st.popped.length + st.frontier.length ≤ st.metrics.nodes_generated
  branchingEq : st.branching = st.popped.map (fun s => (P.actions s).length)
  avgEq : st.metrics.avg_branching_factor = m0.avg_branching_factor
  successEq : st.metrics.success = m0.success
  timeoutEq : st.metrics.timeout = m0.timeout

/-- What is true of the final internal state and the returned triple when
`solve` returns, relative to the metrics `m0` it started from.  The three
disjuncts are the three return sites: frontier exhaustion, timeout, and
success. -/
def FinalFacts {σ α : Type} [DecidableEq σ] (P : Problem σ α)
    (m0 : AStarMetrics) (st : SearchState σ α) (r : SolveReturn σ α) : Prop :=
  r.metrics = st.metrics ∧
  st.metrics.nodes_expanded = m0.nodes_expanded + st.popped.length ∧
  st.popped.length ≤ st.metrics.nodes_generated ∧
  st.popped.Nodup ∧
  ((r.path = none ∧ r.actions = none ∧
      st.metrics.success = m0.success ∧
      st.explored = st.popped.toFinset ∧
      st.branching = st.popped.map (fun s => (P.actions s).length) ∧
      st.metrics.avg_branching_factor = m0.avg_branching_factor ∧
      ((st.frontier = [] ∧ st.metrics.timeout = m0.timeout) ∨
        (st.frontier ≠ [] ∧ st.metrics.timeout = true))) ∨
    (∃ n : Node σ α, ValidNode P n ∧ P.goal_test n.state = true ∧
      r.path = some (extractSolution n).1 ∧
      r.actions = some (extractSolution n).2 ∧
      st.metrics.success = true ∧
      st.metrics.timeout = m0.timeout ∧
      st.metrics.solution_length = (extractSolution n).2.length ∧
      st.popped ≠ [] ∧
      st.popped.getLast? = some n.state ∧
      st.explored = st.popped.dropLast.toFinset ∧
      st.branching = st.popped.dropLast.map (fun s => (P.actions s).length) ∧
      st.metrics.avg_branching_factor =
        (if st.branching.isEmpty then m0.avg_branching_factor
          else branchingAvg st.branching)))

/-- Relation between the metrics of two `solve` calls that differ only in
the `self.metrics` record they started from: the fields that `solve`
resets on entry agree, while `nodes_expanded` (which is only ever
incremented, never reset) is offset by a constant `d`. -/
def MetricsRel (d : Nat) (m m' : AStarMetrics) : Prop :=
  m'.nodes_expanded = m.nodes_expanded + d ∧
  m'.nodes_generated = m.nodes_generated ∧
  m'.max_frontier_size = m.max_frontier_size ∧
  m'.max_memory_nodes = m.max_memory_nodes

/-- Relation between the internal states of two `solve` calls that differ
only in the starting metrics: everything except the metrics coincides, and
the metrics are related by `MetricsRel d`. -/
def SearchRel {σ α : Type} (d : Nat) (st st' : SearchState σ α) : Prop :=
  st'.frontier = st.frontier ∧
  st'.frontierStates = st.frontierStates ∧
  st'.explored = st.explored ∧
  st'.branching = st.branching ∧
  st'.ticks = st.ticks ∧
  st'.popped = st.popped ∧
  MetricsRel d st.metrics st'.metrics

/-- A level string with boxes and a goal but no player glyph. -/
def NOPLAYER : String := "#####\n#$ .#\n#####"

/-- The final state/return pair of the `LEVEL_1` run on a fresh solver
(used to instantiate hypotheses of general theorems at a concrete input). -/
def lvl1Pair : SearchState SokobanState SokAction × SolveReturn SokobanState SokAction :=
  (solveFrom lvl1Problem lvl1Heur noTimeout 10 {}).getD
    (initSearch lvl1Problem lvl1Heur {}, ⟨none, none, {}⟩)

/-- The final state/return pair of the corridor (exhaustion) run on a
fresh solver. -/
def corrPair : SearchState SokobanState SokAction × SolveReturn SokobanState SokAction :=
  (solveFrom corrProblem corrHeur noTimeout 10 {}).getD
    (initSearch corrProblem corrHeur {}, ⟨none, none, {}⟩)

/-- The final state/return pair of a second `solve` call made on the same
solver object right after the `LEVEL_1` run (its `self.metrics` still holds
the first run's record). -/
def lvl1PairReuse : SearchState SokobanState SokAction × SolveReturn SokobanState SokAction :=
  (solveFrom lvl1Problem lvl1Heur noTimeout 10 lvl1Pair.2.metrics).getD
    (initSearch lvl1Problem lvl1Heur {}, ⟨none, none, {}⟩)

/-- The internal search state after two completed iterations of the
corridor run. -/
def corrIter2 : SearchState SokobanState SokAction :=
  (iterateSearch corrProblem corrHeur noTimeout 2
      (initSearch corrProblem corrHeur {})).getD
    (initSearch corrProblem corrHeur {})

/-- A tiny problem instance over natural numbers used to exercise the
three frontier-update cases of the successor loop in isolation. -/
def c6P : Problem Nat Nat :=
  ⟨0, fun _ => false, fun _ => [], fun s a => (s + a, 1)⟩

/-- The zero heuristic on the tiny instance. -/
def c6h : Nat → WithTop Nat := fun _ => 0

/-- A parent node for the tiny instance (state 5, path cost 0). -/
def c6node : Node Nat Nat := Node.mk 5 none none 0

/-- A search state whose frontier holds state 6 with recorded g = 3
(worse than a new path of cost 1). -/
def c6stWorse : SearchState Nat Nat :=
  ⟨[(5, Node.mk 6 none none 3)], [(6, (3, 5))], ∅, [], {}, 0, []⟩

/-- A search state whose frontier holds state 6 with recorded g = 0
(equal-or-better than a new path of cost 1). -/
def c6stBetter : SearchState Nat Nat :=
  ⟨[(5, Node.mk 6 none none 0)], [(6, (0, 5))], ∅, [], {}, 0, []⟩

/-- A search state with an empty frontier (state 6 absent). -/
def c6stEmpty : SearchState Nat Nat :=
  ⟨[], [], ∅, [], {}, 0, []⟩

/- ------------------------------------------------------------------ -/
/- Basic lemmas about the engine's data structures                     -/
/- ------------------------------------------------------------------ -/

@[simp]
theorem Node.state_mk {σ α : Type} (s : σ) (p : Option (Node σ α))
    (a : Option α) (g : Nat) : (Node.mk s p a g).state = s := rfl

@[simp]
theorem Node.g_mk {σ α : Type} (s : σ) (p : Option (Node σ α))
    (a : Option α) (g : Nat) : (Node.mk s p a g).g = g := rfl

theorem popMin1_perm {σ α : Type} (x : WithTop Nat × Node σ α)
    (l : List (WithTop Nat × Node σ α)) :
    (x :: l).Perm ((popMin1 x l).1 :: (popMin1 x l).2) := by
  induction l generalizing x with
  | nil => simp [popMin1]
  | cons y ys ih =>
      simp only [popMin1]
      by_cases h : entryLeB x (popMin1 y ys).1 = true
      · simp [h]
      · simp only [h, Bool.false_eq_true, if_false]
        exact ((ih y).cons x).trans (List.Perm.swap _ _ _)

theorem fsLookup_isSome_iff {σ : Type} [DecidableEq σ]
    (l : List (σ × Nat × WithTop Nat)) (s : σ) :
    (fsLookup l s).isSome = true ↔ s ∈ l.map Prod.fst := by
  induction l with
  | nil => simp [fsLookup]
  | cons e rest ih =>
      obtain ⟨s', v⟩ := e
      by_cases h : s' = s
      · subst h
        simp [fsLookup]
      · simp [fsLookup, h, ih, Ne.symm h]

theorem fsErase_keys {σ : Type} [DecidableEq σ]
    (l : List (σ × Nat × WithTop Nat)) (s : σ) :
    (fsErase l s).map Prod.fst = (l.map Prod.fst).erase s := by
  induction l with
  | nil => simp [fsErase]
  | cons e rest ih =>
      obtain ⟨s', v⟩ := e
      by_cases h : s' = s
      · subst h
        simp [fsErase, List.erase_cons_head]
      · simp [fsErase, h, List.erase_cons_tail, ih,
          (by simpa using h : ¬ (s' == s) = true)]

theorem fsLookup_fsErase_self {σ : Type} [DecidableEq σ]
    (l : List (σ × Nat × WithTop Nat)) (s : σ)
    (hnd : (l.map Prod.fst).Nodup) :
    fsLookup (fsErase l s) s = none := by
  induction l with
  | nil => simp [fsErase, fsLookup]
  | cons e rest ih =>
      obtain ⟨s', v⟩ := e
      simp only [List.map_cons, List.nodup_cons] at hnd
      by_cases h : s' = s
      · subst h
        simp only [fsErase, if_pos rfl]
        cases hl : fsLookup rest s' with
        | none => exact hl
        | some v' =>
            exfalso
            have : s' ∈ rest.map Prod.fst := by
              rw [← fsLookup_isSome_iff, hl]
              rfl
            exact hnd.1 this
      · simp only [fsErase, if_neg h, fsLookup, if_neg h]
        exact ih hnd.2

theorem fsLookup_fsErase_ne {σ : Type} [DecidableEq σ]
    (l : List (σ × Nat × WithTop Nat)) (s s' : σ) (hne : s' ≠ s) :
    fsLookup (fsErase l s) s' = fsLookup l s' := by
  induction l with
  | nil => simp [fsErase]
  | cons e rest ih =>
      obtain ⟨s₀, v⟩ := e
      by_cases h : s₀ = s
      · subst h
        simp [fsErase, fsLookup, if_neg (Ne.symm hne)]
      · simp only [fsErase, if_neg h, fsLookup]
        by_cases h' : s₀ = s'
        · simp [h']
        · simp [h', ih]

theorem fsLookup_fsSet_self {σ : Type} [DecidableEq σ]
    (l : List (σ × Nat × WithTop Nat)) (s : σ) (v : Nat × WithTop Nat) :
    fsLookup (fsSet l s v) s = some v := by
  induction l with
  | nil => simp [fsSet, fsLookup]
  | cons e rest ih =>
      obtain ⟨s₀, v₀⟩ := e
      by_cases h : s₀ = s
      · subst h
        simp [fsSet, fsLookup]
      · simp [fsSet, h, fsLookup, ih]

theorem fsLookup_fsSet_ne {σ : Type} [DecidableEq σ]
    (l : List (σ × Nat × WithTop Nat)) (s s' : σ) (v : Nat × WithTop Nat)
    (hne : s' ≠ s) :
    fsLookup (fsSet l s v) s' = fsLookup l s' := by
  induction l with
  | nil => simp [fsSet, fsLookup, if_neg (Ne.symm hne)]
  | cons e rest ih =>
      obtain ⟨s₀, v₀⟩ := e
      by_cases h : s₀ = s
      · subst h
        simp [fsSet, fsLookup, if_neg (Ne.symm hne)]
      · simp only [fsSet, if_neg h, fsLookup]
        by_cases h' : s₀ = s'
        · simp [h']
        · simp [h', ih]

theorem fsSet_keys_of_absent {σ : Type} [DecidableEq σ]
    (l : List (σ × Nat × WithTop Nat)) (s : σ) (v : Nat × WithTop Nat)
    (habs : s ∉ l.map Prod.fst) :
    (fsSet l s v).map Prod.fst = l.map Prod.fst ++ [s] := by
  induction l with
  | nil => simp [fsSet]
  | cons e rest ih =>
      obtain ⟨s₀, v₀⟩ := e
      simp only [List.map_cons, List.mem_cons] at habs
      push_neg at habs
      rw [fsSet, if_neg (Ne.symm habs.1)]
      simp [ih habs.2]

theorem removeFirstByState_map {σ α : Type} [DecidableEq σ]
    (l : List (WithTop Nat × Node σ α)) (s : σ) :
    (removeFirstByState l s).map entryState = (l.map entryState).erase s := by
  induction l with
  | nil => simp [removeFirstByState]
  | cons e rest ih =>
      by_cases h : e.2.state = s
      · simp only [removeFirstByState, if_pos h, List.map_cons]
        rw [show entryState e = s from h, List.erase_cons_head]
      · simp only [removeFirstByState, if_neg h, List.map_cons]
        rw [List.erase_cons_tail, ih]
        simpa [entryState] using h

theorem removeFirstByState_subset {σ α : Type} [DecidableEq σ]
    (l : List (WithTop Nat × Node σ α)) (s : σ)
    (e : WithTop Nat × Node σ α) (he : e ∈ removeFirstByState l s) : e ∈ l := by
  induction l with
  | nil => simp [removeFirstByState] at he
  | cons x rest ih =>
      by_cases h : x.2.state = s
      · simp only [removeFirstByState, if_pos h] at he
        exact List.mem_cons_of_mem _ he
      · simp only [removeFirstByState, if_neg h, List.mem_cons] at he
        rcases he with he | he
        · exact he ▸ List.mem_cons_self _ _
        · exact List.mem_cons_of_mem _ (ih he)

theorem remove_from_frontier_of_mem {σ α : Type} [DecidableEq σ]
    (fr : List (WithTop Nat × Node σ α)) (fs : List (σ × Nat × WithTop Nat))
    (s : σ) (hmem : s ∈ fr.map entryState) :
    remove_from_frontier fr fs s = (removeFirstByState fr s, fsErase fs s) := by
  have : fr.any (fun e => decide (e.2.state = s)) = true := by
    rw [List.any_eq_true]
    rcases List.mem_map.mp hmem with ⟨e, he, hes⟩
    exact ⟨e, he, by simpa [entryState] using hes⟩
  simp [remove_from_frontier, this]

theorem runActions_append_one {σ α : Type} (P : Problem σ α) (s : σ)
    (as : List α) (a : α) :
    runActions P s (as ++ [a]) = (P.result (runActions P s as) a).1 := by
  induction as generalizing s with
  | nil => simp [runActions]
  | cons b bs ih => simp [runActions, ih]

theorem statesAlong_append_one {σ α : Type} (P : Problem σ α) (s : σ)
    (as : List α) (a : α) :
    statesAlong P s (as ++ [a]) =
      statesAlong P s as ++ [(P.result (runActions P s as) a).1] := by
  induction as generalizing s with
  | nil => simp [statesAlong, runActions]
  | cons b bs ih => simp [statesAlong, runActions, ih]

theorem extractSolution_of_valid {σ α : Type} (P : Problem σ α)
    (n : Node σ α) (hv : ValidNode P n) :
    (extractSolution n).1 = statesAlong P P.init (extractSolution n).2 ∧
      runActions P P.init (extractSolution n).2 = n.state := by
  induction hv with
  | root => simp [extractSolution, actionContrib, statesAlong, runActions]
  | child a hn ih =>
      rename_i m
      constructor
      · simp only [extractSolution, actionContrib, ih.1]
        rw [statesAlong_append_one, ih.2]
      · simp only [extractSolution, actionContrib]
        rw [runActions_append_one, ih.2]
        simp

theorem removeFirstByState_length_le {σ α : Type} [DecidableEq σ]
    (l : List (WithTop Nat × Node σ α)) (s : σ) :
    (removeFirstByState l s).length ≤ l.length := by
  induction l with
  | nil => simp [removeFirstByState]
  | cons e rest ih =>
      by_cases h : e.2.state = s
      · simp [removeFirstByState, h]
      · simp only [removeFirstByState, if_neg h, List.length_cons]
        exact Nat.succ_le_succ ih

theorem processAction_spec {σ α : Type} [DecidableEq σ] (P : Problem σ α)
    (h : σ → WithTop Nat) (node : Node σ α) (st : SearchState σ α) (a : α)
    (hvnode : ValidNode P node) (hfi : FrontierInv P st) :
    FrontierInv P (processAction P h node st a) ∧
    (processAction P h node st a).explored = st.explored ∧
    (processAction P h node st a).branching = st.branching ∧
    (processAction P h node st a).popped = st.popped ∧
    (processAction P h node st a).ticks = st.ticks ∧
    (processAction P h node st a).metrics.nodes_generated =
      st.metrics.nodes_generated + 1 ∧
    (processAction P h node st a).metrics.nodes_expanded =
      st.metrics.nodes_expanded ∧
    (processAction P h node st a).metrics.avg_branching_factor =
      st.metrics.avg_branching_factor ∧
    (processAction P h node st a).metrics.success = st.metrics.success ∧
    (processAction P h node st a).metrics.timeout = st.metrics.timeout ∧
    (processAction P h node st a).frontier.length ≤ st.frontier.length + 1 := by
  classical
  obtain ⟨hval, hnd, hkeys, hndk, hdis⟩ := hfi
  by_cases hex : (P.result node.state a).1 ∈ st.explored
  · simp only [processAction, if_pos hex]
    refine ⟨⟨hval, hnd, hkeys, hndk, hdis⟩, ?_⟩
    simp
  · rcases hfs : fsLookup st.frontierStates (P.result node.state a).1 with _ | gf
    · -- new state: unconditional insert
      have hnmem : (P.result node.state a).1 ∉ st.frontier.map entryState := by
        intro hc
        have := (hkeys _).mpr hc
        rw [hfs] at this
        simp at this
      have hnkey : (P.result node.state a).1 ∉ st.frontierStates.map Prod.fst := by
        rw [← fsLookup_isSome_iff, hfs]
        simp
      simp only [processAction, if_neg hex, hfs]
      refine ⟨⟨?_, ?_, ?_, ?_, ?_⟩, ?_⟩
      · intro e he
        rcases List.mem_append.mp he with he | he
        · exact hval e he
        · rcases List.mem_singleton.mp he with rfl
          exact ValidNode.child a hvnode
      · rw [List.map_append]
        refine List.Nodup.append hnd (by simp) ?_
        intro x hx hx'
        rcases List.mem_singleton.mp hx' with rfl
        exact hnmem hx
      · intro s
        by_cases hs : s = (P.result node.state a).1
        · subst hs
          rw [fsLookup_fsSet_self]
          simp [entryState]
        · rw [fsLookup_fsSet_ne _ _ _ _ hs, List.map_append]
          simp only [List.mem_append]
          rw [hkeys s]
          constructor
          · exact fun hm => Or.inl hm
          · rintro (hm | hm)
            · exact hm
            · exact absurd (by simpa [entryState] using hm) hs
      · rw [fsSet_keys_of_absent _ _ _ hnkey]
        refine List.Nodup.append hndk (by simp) ?_
        intro x hx hx'
        rcases List.mem_singleton.mp hx' with rfl
        exact hnkey hx
      · intro e he
        rcases List.mem_append.mp he with he | he
        · exact hdis e he
        · rcases List.mem_singleton.mp he with rfl
          exact hex
      · simp
    · by_cases hlt : ((P.result node.state a).2 + node.g) < gf.1
      · -- strictly better path: replace the stale entry
        have hmem : (P.result node.state a).1 ∈ st.frontier.map entryState := by
          rw [← hkeys]
          rw [hfs]
          rfl
        simp only [processAction, if_neg hex, hfs, Node.g_mk, if_pos hlt,
          remove_from_frontier_of_mem _ _ _ hmem]
        refine ⟨⟨?_, ?_, ?_, ?_, ?_⟩, ?_⟩
        · intro e he
          rcases List.mem_append.mp he with he | he
          · exact hval e (removeFirstByState_subset _ _ _ he)
          · rcases List.mem_singleton.mp he with rfl
            exact ValidNode.child a hvnode
        · rw [List.map_append, removeFirstByState_map]
          refine List.Nodup.append (hnd.erase _) (by simp) ?_
          intro x hx hx'
          rcases List.mem_singleton.mp hx' with rfl
          exact ((hnd.mem_erase_iff).mp hx).1 rfl
        · intro s
          by_cases hs : s = (P.result node.state a).1
          · subst hs
            rw [fsLookup_fsSet_self]
            simp [entryState]
          · rw [fsLookup_fsSet_ne _ _ _ _ hs,
              fsLookup_fsErase_ne _ _ _ hs,
              List.map_append, removeFirstByState_map]
            simp only [List.mem_append]
            rw [hkeys s]
            constructor
            · intro hm
              exact Or.inl ((hnd.mem_erase_iff).mpr ⟨hs, hm⟩)
            · rintro (hm | hm)
              · exact ((hnd.mem_erase_iff).mp hm).2
              · exact absurd (by simpa [entryState] using hm) hs
        · rw [fsSet_keys_of_absent, fsErase_keys]
          · refine List.Nodup.append (hndk.erase _) (by simp) ?_
            intro x hx hx'
            rcases List.mem_singleton.mp hx' with rfl
            exact ((hndk.mem_erase_iff).mp hx).1 rfl
          · rw [fsErase_keys]
            intro hc
            exact ((hndk.mem_erase_iff).mp hc).1 rfl
        · intro e he
          rcases List.mem_append.mp he with he | he
          · exact hdis e (removeFirstByState_subset _ _ _ he)
          · rcases List.mem_singleton.mp he with rfl
            exact hex
        · simp only [true_and, List.length_append, List.length_singleton]
          exact Nat.add_le_add_right (removeFirstByState_length_le _ _) 1
      · simp only [processAction, if_neg hex, hfs, Node.g_mk, if_neg hlt]
        refine ⟨⟨hval, hnd, hkeys, hndk, hdis⟩, ?_⟩
        simp

theorem foldl_processAction_spec {σ α : Type} [DecidableEq σ] (P : Problem σ α)
    (h : σ → WithTop Nat) (node : Node σ α) (hvnode : ValidNode P node)
    (acts : List α) (st : SearchState σ α) (hfi : FrontierInv P st) :
    FrontierInv P (acts.foldl (processAction P h node) st) ∧
    (acts.foldl (processAction P h node) st).explored = st.explored ∧
    (acts.foldl (processAction P h node) st).branching = st.branching ∧
    (acts.foldl (processAction P h node) st).popped = st.popped ∧
    (acts.foldl (processAction P h node) st).ticks = st.ticks ∧
    (acts.foldl (processAction P h node) st).metrics.nodes_generated =
      st.metrics.nodes_generated + acts.length ∧
    (acts.foldl (processAction P h node) st).metrics.nodes_expanded =
      st.metrics.nodes_expanded ∧
    (acts.foldl (processAction P h node) st).metrics.avg_branching_factor =
      st.metrics.avg_branching_factor ∧
    (acts.foldl (processAction P h node) st).metrics.success =
      st.metrics.success ∧
    (acts.foldl (processAction P h node) st).metrics.timeout =
      st.metrics.timeout ∧
    (acts.foldl (processAction P h node) st).frontier.length ≤
      st.frontier.length + acts.length := by
  induction acts generalizing st with
  | nil => exact ⟨hfi, rfl, rfl, rfl, rfl, rfl, rfl, rfl, rfl, rfl, Nat.le_refl _⟩
  | cons a rest ih =>
      obtain ⟨h1, h2, h3, h4, h5, h6, h7, h8, h9, h10, h11⟩ :=
        processAction_spec P h node st a hvnode hfi
      obtain ⟨g1, g2, g3, g4, g5, g6, g7, g8, g9, g10, g11⟩ :=
        ih (processAction P h node st a) h1
      simp only [List.foldl_cons]
      refine ⟨g1, g2.trans h2, g3.trans h3, g4.trans h4, g5.trans h5, ?_,
        g7.trans h7, g8.trans h8, g9.trans h9, g10.trans h10, ?_⟩
      · rw [g6, h6, List.length_cons]
        omega
      · calc (rest.foldl (processAction P h node) (processAction P h node st a)).frontier.length
            ≤ (processAction P h node st a).frontier.length + rest.length := g11
          _ ≤ (st.frontier.length + 1) + rest.length := Nat.add_le_add_right h11 _
          _ = st.frontier.length + (a :: rest).length := by
              rw [List.length_cons]
              omega

theorem stepSearch_spec {σ α : Type} [DecidableEq σ] (P : Problem σ α)
    (h : σ → WithTop Nat) (clock : Nat → Bool) (m0 : AStarMetrics)
    (st : SearchState σ α) (hinv : EngineInv P m0 st) :
    (∀ st', stepSearch P h clock st = StepOut.next st' → EngineInv P m0 st') ∧
    (∀ st' r, stepSearch P h clock st = StepOut.halt st' r →
      FinalFacts P m0 st' r) := by
  obtain ⟨⟨hval, hnd, hkeys, hndk, hdis⟩, hexp, hndp, hexpand, hgen, hbr,
    havg, hsuc, htim⟩ := hinv
  rcases hfr : st.frontier with _ | ⟨e, rest0⟩
  · -- frontier exhausted: the loop condition fails and solve returns
    constructor
    · intro st' hstep
      simp only [stepSearch, hfr] at hstep
      exact StepOut.noConfusion hstep
    · intro st' r hstep
      simp only [stepSearch, hfr, StepOut.halt.injEq] at hstep
      obtain ⟨hst', hr⟩ := hstep
      subst hst'
      subst hr
      refine ⟨rfl, hexpand, ?_, hndp, Or.inl ⟨rfl, rfl, hsuc, hexp, hbr, havg,
        Or.inl ⟨rfl, htim⟩⟩⟩
      calc st.popped.length ≤ st.popped.length + st.frontier.length :=
            Nat.le_add_right _ _
        _ ≤ st.metrics.nodes_generated := hgen
  · by_cases hck : clock st.ticks = true
    · -- timeout return
      constructor
      · intro st' hstep
        simp only [stepSearch, hfr, hck, if_true] at hstep
        exact StepOut.noConfusion hstep
      · intro st' r hstep
        simp only [stepSearch, hfr, hck, if_true, StepOut.halt.injEq] at hstep
        obtain ⟨hst', hr⟩ := hstep
        subst hst'
        subst hr
        refine ⟨rfl, hexpand, ?_, hndp, Or.inl ⟨rfl, rfl, hsuc, hexp, hbr, havg,
          Or.inr ⟨by simp, rfl⟩⟩⟩
        calc st.popped.length ≤ st.popped.length + st.frontier.length :=
              Nat.le_add_right _ _
          _ ≤ st.metrics.nodes_generated := hgen
    · -- pop a minimum-f node
      have hperm : (e :: rest0).Perm ((popMin1 e rest0).1 :: (popMin1 e rest0).2) :=
        popMin1_perm e rest0
      have hmem1 : (popMin1 e rest0).1 ∈ st.frontier := by
        rw [hfr]
        exact hperm.symm.subset (List.mem_cons_self _ _)
      have hvpop : ValidNode P (popMin1 e rest0).1.2 := hval _ hmem1
      have hndpm : (((popMin1 e rest0).1 :: (popMin1 e rest0).2).map entryState).Nodup := by
        refine (List.Perm.nodup_iff (hperm.map entryState)).mp ?_
        rw [← hfr]
        exact hnd
      have hpopnotmem : (popMin1 e rest0).1.2.state ∉ st.popped := by
        intro hc
        have : (popMin1 e rest0).1.2.state ∈ st.explored := by
          rw [hexp]
          exact List.mem_toFinset.mpr hc
        exact hdis _ hmem1 this
      have hlen2 : (popMin1 e rest0).2.length = rest0.length := by
        have := hperm.length_eq
        simpa using this.symm
      by_cases hg : P.goal_test (popMin1 e rest0).1.2.state = true
      · -- goal found: success return
        constructor
        · intro st' hstep
          simp only [stepSearch, hfr, hck, if_false, Bool.false_eq_true, hg,
            if_true] at hstep
          exact StepOut.noConfusion hstep
        · intro st' r hstep
          simp only [stepSearch, hfr, hck, if_false, Bool.false_eq_true, hg,
            if_true, StepOut.halt.injEq] at hstep
          obtain ⟨hst', hr⟩ := hstep
          subst hst'
          subst hr
          refine ⟨rfl, ?_, ?_, ?_, Or.inr ⟨(popMin1 e rest0).1.2, hvpop, hg,
            rfl, rfl, rfl, ?_, rfl, ?_, ?_, ?_, ?_, ?_⟩⟩
          · simp only [List.length_append, List.length_singleton]
            rw [hexpand]
            omega
          · simp only [List.length_append, List.length_singleton]
            rw [hfr] at hgen
            simp only [List.length_cons] at hgen
            omega
          · simp only [List.nodup_append, List.nodup_singleton]
            refine ⟨hndp, trivial, ?_⟩
            intro x hx hx'
            rcases List.mem_singleton.mp hx' with rfl
            exact hpopnotmem hx
          · exact htim
          · simp
          · simp [List.getLast?_append]
          · rw [List.dropLast_concat]
            exact hexp
          · rw [List.dropLast_concat]
            exact hbr
          · simp only [List.isEmpty_iff]
            rw [havg]
            by_cases hb : st.branching = []
            · simp [hb]
            · simp [hb, branchingAvg]
      · -- regular expansion
        rw [Bool.not_eq_true] at hg
        have hsubmem : ∀ e' ∈ (popMin1 e rest0).2, e' ∈ st.frontier := by
          intro e' he'
          rw [hfr]
          exact hperm.symm.subset (List.mem_cons_of_mem _ he')
        have hndpm2 : (entryState (popMin1 e rest0).1 ::
            (popMin1 e rest0).2.map entryState).Nodup := by
          simpa only [List.map_cons] using hndpm
        have hndtail : ((popMin1 e rest0).2.map entryState).Nodup :=
          hndpm2.of_cons
        have hheadnot : (popMin1 e rest0).1.2.state ∉
            (popMin1 e rest0).2.map entryState :=
          (List.nodup_cons.mp hndpm2).1
        have hmapperm : (st.frontier.map entryState).Perm
            (entryState (popMin1 e rest0).1 :: (popMin1 e rest0).2.map entryState) := by
          rw [hfr]
          simpa using hperm.map entryState
        have hfiMid : FrontierInv P
            { frontier := (popMin1 e rest0).2,
              frontierStates := fsErase st.frontierStates (popMin1 e rest0).1.2.state,
              explored := insert (popMin1 e rest0).1.2.state st.explored,
              branching := st.branching ++ [(P.actions (popMin1 e rest0).1.2.state).length],
              metrics := { st.metrics with
                nodes_expanded := st.metrics.nodes_expanded + 1,
                max_memory_nodes := st.metrics.max_memory_nodes ⊔
                  ((e :: rest0).length + st.explored.card) },
              ticks := st.ticks,
              popped := st.popped ++ [(popMin1 e rest0).1.2.state] } := by
          refine ⟨?_, ?_, ?_, ?_, ?_⟩
          · intro e' he'
            exact hval e' (hsubmem e' he')
          · exact hndtail
          · intro s
            by_cases hs : s = (popMin1 e rest0).1.2.state
            · subst hs
              rw [fsLookup_fsErase_self _ _ hndk]
              simp only [Option.isSome_none, Bool.false_eq_true, false_iff]
              exact hheadnot
            · rw [fsLookup_fsErase_ne _ _ _ hs]
              rw [hkeys s]
              constructor
              · intro hm
                have := hmapperm.subset hm
                rcases List.mem_cons.mp this with hm' | hm'
                · exact absurd (by simpa [entryState] using hm') hs
                · exact hm'
              · intro hm
                exact hmapperm.symm.subset (List.mem_cons_of_mem _ hm)
          · rw [fsErase_keys]
            exact hndk.erase _
          · intro e' he'
            rw [Finset.mem_insert]
            push_neg
            constructor
            · intro hc
              exact hheadnot (hc ▸ List.mem_map_of_mem entryState he')
            · exact hdis e' (hsubmem e' he')
        constructor
        · intro st' hstep
          simp only [stepSearch, hfr, hck, if_false, Bool.false_eq_true, hg,
            StepOut.next.injEq] at hstep
          subst hstep
          obtain ⟨g1, g2, g3, g4, g5, g6, g7, g8, g9, g10, g11⟩ :=
            foldl_processAction_spec P h (popMin1 e rest0).1.2 hvpop
              (P.actions (popMin1 e rest0).1.2.state)
              { frontier := (popMin1 e rest0).2,
                frontierStates := fsErase st.frontierStates (popMin1 e rest0).1.2.state,
                explored := insert (popMin1 e rest0).1.2.state st.explored,
                branching := st.branching ++ [(P.actions (popMin1 e rest0).1.2.state).length],
                metrics := { st.metrics with
                  nodes_expanded := st.metrics.nodes_expanded + 1,
                  max_memory_nodes := st.metrics.max_memory_nodes ⊔
                    ((e :: rest0).length + st.explored.card) },
                ticks := st.ticks,
                popped := st.popped ++ [(popMin1 e rest0).1.2.state] }
              hfiMid
          refine ⟨⟨g1.validFrontier, g1.nodupFrontier, g1.keysEquiv,
            g1.nodupKeys, g1.disjointExplored⟩, ?_, ?_, ?_, ?_, ?_, ?_, ?_, ?_⟩
          · show _ = _
            rw [g2, g4]
            show insert (popMin1 e rest0).1.2.state st.explored = _
            rw [hexp]
            ext x
            simp [or_comm]
          · show (_ : List σ).Nodup
            rw [g4]
            show (st.popped ++ [(popMin1 e rest0).1.2.state]).Nodup
            simp only [List.nodup_append, List.nodup_singleton]
            refine ⟨hndp, trivial, ?_⟩
            intro x hx hx'
            rcases List.mem_singleton.mp hx' with rfl
            exact hpopnotmem hx
          · show _ = _
            rw [g7, g4]
            show st.metrics.nodes_expanded + 1 =
              m0.nodes_expanded + (st.popped ++ [(popMin1 e rest0).1.2.state]).length
            rw [hexpand, List.length_append, List.length_singleton]
            omega
          · show _ + _ ≤ _
            rw [g4]
            refine le_trans (Nat.add_le_add_left g11 _) ?_
            rw [g6]
            have hgen2 : st.popped.length + (rest0.length + 1) ≤
                st.metrics.nodes_generated := by
              rw [hfr] at hgen
              simpa using hgen
            show (st.popped ++ [(popMin1 e rest0).1.2.state]).length +
                ((popMin1 e rest0).2.length +
                  (P.actions (popMin1 e rest0).1.2.state).length) ≤
              st.metrics.nodes_generated +
                (P.actions (popMin1 e rest0).1.2.state).length
            simp only [List.length_append, List.length_singleton]
            rw [hlen2]
            omega
          · show _ = _
            rw [g3, g4]
            show st.branching ++ [(P.actions (popMin1 e rest0).1.2.state).length] = _
            rw [hbr]
            simp
          · show _ = _
            rw [g8]
            exact havg
          · show _ = _
            rw [g9]
            exact hsuc
          · show _ = _
            rw [g10]
            exact htim
        · intro st' r hstep
          simp only [stepSearch, hfr, hck, if_false, Bool.false_eq_true,
            hg] at hstep
          exact StepOut.noConfusion hstep

theorem initSearch_inv {σ α : Type} [DecidableEq σ] (P : Problem σ α)
    (h : σ → WithTop Nat) (m0 : AStarMetrics) :
    EngineInv P m0 (initSearch P h m0) := by
  refine ⟨⟨?_, ?_, ?_, ?_, ?_⟩, ?_, ?_, ?_, ?_, ?_, ?_, ?_, ?_⟩
  · intro e he
    rcases List.mem_singleton.mp he with rfl
    exact ValidNode.root
  · simp [initSearch]
  · intro s
    by_cases hs : s = P.init
    · subst hs
      simp [initSearch, fsLookup, entryState]
    · simp [initSearch, fsLookup, entryState, if_neg (Ne.symm hs), hs,
        Ne.symm hs]
  · simp [initSearch]
  · intro e he
    simp [initSearch]
  · simp [initSearch]
  · simp [initSearch]
  · simp [initSearch]
  · simp [initSearch]
  · simp [initSearch]
  · simp [initSearch]
  · simp [initSearch]
  · simp [initSearch]

theorem solveAux_spec {σ α : Type} [DecidableEq σ] (P : Problem σ α)
    (h : σ → WithTop Nat) (clock : Nat → Bool) (m0 : AStarMetrics) :
    ∀ (fuel : Nat) (st st' : SearchState σ α) (r : SolveReturn σ α),
      EngineInv P m0 st → solveAux P h clock fuel st = some (st', r) →
        FinalFacts P m0 st' r := by
  intro fuel
  induction fuel with
  | zero => intro st st' r _ hrun; simp [solveAux] at hrun
  | succ n ih =>
      intro st st' r hinv hrun
      rcases hstep : stepSearch P h clock st with st1 | ⟨st1, r1⟩
      · simp only [solveAux, hstep] at hrun
        exact ih st1 st' r ((stepSearch_spec P h clock m0 st hinv).1 st1 hstep)
          hrun
      · simp only [solveAux, hstep] at hrun
        simp only [Option.some.injEq, Prod.mk.injEq] at hrun
        obtain ⟨h1, h2⟩ := hrun
        subst h1
        subst h2
        exact (stepSearch_spec P h clock m0 st hinv).2 st1 r1 hstep

theorem iterateSearch_inv {σ α : Type} [DecidableEq σ] (P : Problem σ α)
    (h : σ → WithTop Nat) (clock : Nat → Bool) (m0 : AStarMetrics) :
    ∀ (k : Nat) (st st' : SearchState σ α), EngineInv P m0 st →
      iterateSearch P h clock k st = some st' → EngineInv P m0 st' := by
  intro k
  induction k with
  | zero =>
      intro st st' hinv hrun
      simp only [iterateSearch, Option.some.injEq] at hrun
      exact hrun ▸ hinv
  | succ n ih =>
      intro st st' hinv hrun
      rcases hstep : stepSearch P h clock st with st1 | ⟨st1, r1⟩
      · simp only [iterateSearch, hstep] at hrun
        exact ih st1 st' ((stepSearch_spec P h clock m0 st hinv).1 st1 hstep)
          hrun
      · simp only [iterateSearch, hstep] at hrun
        simp at hrun

theorem solveFrom_spec {σ α : Type} [DecidableEq σ] (P : Problem σ α)
    (h : σ → WithTop Nat) (clock : Nat → Bool) (m0 : AStarMetrics)
    (fuel : Nat) (st' : SearchState σ α) (r : SolveReturn σ α)
    (hrun : solveFrom P h clock fuel m0 = some (st', r)) :
    FinalFacts P m0 st' r :=
  solveAux_spec P h clock m0 fuel _ st' r (initSearch_inv P h m0) hrun

/- ------------------------------------------------------------------ -/
/- Heuristic lemmas                                                    -/
/- ------------------------------------------------------------------ -/

theorem manhattan_distance_eq_zero_iff (p q : Pos) :
    manhattan_distance p q = 0 ↔ p = q := by
  unfold manhattan_distance
  constructor
  · intro hz
    have h1 : (p.1 - q.1).natAbs = 0 := by omega
    have h2 : (p.2 - q.2).natAbs = 0 := by omega
    have h1' : p.1 = q.1 := by
      have := Int.natAbs_eq_zero.mp h1
      omega
    have h2' : p.2 = q.2 := by
      have := Int.natAbs_eq_zero.mp h2
      omega
    exact Prod.ext h1' h2'
  · intro hpq
    subst hpq
    simp

theorem manhattan_distance_self (p : Pos) : manhattan_distance p p = 0 := by
  simp [manhattan_distance]

theorem bestGoalFold_some_of_acc {b : Pos} :
    ∀ (l : List Pos) (gd : Pos × Nat), ∃ gd',
      l.foldl (fun best g =>
        match best with
        | none => some (g, manhattan_distance b g)
        | some gd =>
            if manhattan_distance b g < gd.2 then
              some (g, manhattan_distance b g)
            else some gd) (some gd) = some gd' := by
  intro l
  induction l with
  | nil => intro gd; exact ⟨gd, rfl⟩
  | cons x rest ih =>
      intro gd
      simp only [List.foldl_cons]
      by_cases hx : manhattan_distance b x < gd.2
      · simpa [hx] using ih (x, manhattan_distance b x)
      · simpa [hx] using ih gd

theorem bestGoalFold_ne_none {b : Pos} {gs : List Pos} (hgs : gs ≠ []) :
    ∃ gd, bestGoalFold b gs = some gd := by
  rcases gs with _ | ⟨g, rest⟩
  · exact absurd rfl hgs
  · simp only [bestGoalFold, List.foldl_cons]
    exact bestGoalFold_some_of_acc rest (g, manhattan_distance b g)

theorem bestGoalFold_go_spec (b : Pos) :
    ∀ (l : List Pos) (acc : Option (Pos × Nat)) (g : Pos) (d : Nat),
      l.foldl (fun best g' =>
        match best with
        | none => some (g', manhattan_distance b g')
        | some gd =>
            if manhattan_distance b g' < gd.2 then
              some (g', manhattan_distance b g')
            else some gd) acc = some (g, d) →
      acc = some (g, d) ∨ (g ∈ l ∧ d = manhattan_distance b g) := by
  intro l
  induction l with
  | nil =>
      intro acc g d hfold
      exact Or.inl hfold
  | cons x rest ih =>
      intro acc g d hfold
      simp only [List.foldl_cons] at hfold
      rcases acc with _ | ⟨g0, d0⟩
      · rcases ih _ g d hfold with hacc | hmem
        · simp only [Option.some.injEq, Prod.mk.injEq] at hacc
          refine Or.inr ⟨by simp [hacc.1], ?_⟩
          rw [← hacc.1]
          exact hacc.2.symm
        · exact Or.inr ⟨List.mem_cons_of_mem _ hmem.1, hmem.2⟩
      · by_cases hx : manhattan_distance b x < d0
        · simp only [hx, if_true] at hfold
          rcases ih _ g d hfold with hacc | hmem
          · simp only [Option.some.injEq, Prod.mk.injEq] at hacc
            refine Or.inr ⟨by simp [hacc.1], ?_⟩
            rw [← hacc.1]
            exact hacc.2.symm
          · exact Or.inr ⟨List.mem_cons_of_mem _ hmem.1, hmem.2⟩
        · simp only [hx, if_false] at hfold
          rcases ih _ g d hfold with hacc | hmem
          · exact Or.inl hacc
          · exact Or.inr ⟨List.mem_cons_of_mem _ hmem.1, hmem.2⟩

theorem bestGoalFold_spec {b : Pos} {gs : List Pos} {g : Pos} {d : Nat}
    (hfold : bestGoalFold b gs = some (g, d)) :
    g ∈ gs ∧ d = manhattan_distance b g := by
  rcases bestGoalFold_go_spec b gs none g d hfold with hacc | hmem
  · exact absurd hacc (by simp)
  · exact hmem

theorem bestGoalFold_freeze_zero {b g0 : Pos} :
    ∀ (l : List Pos),
      l.foldl (fun best g' =>
        match best with
        | none => some (g', manhattan_distance b g')
        | some gd =>
            if manhattan_distance b g' < gd.2 then
              some (g', manhattan_distance b g')
            else some gd) (some (g0, 0)) = some (g0, 0) := by
  intro l
  induction l with
  | nil => rfl
  | cons x rest ih =>
      simp only [List.foldl_cons, Nat.not_lt_zero, if_false]
      exact ih

theorem bestGoalFold_reaches_self {b : Pos} :
    ∀ (l : List Pos), b ∈ l →
      ∀ (acc : Option (Pos × Nat)),
        (acc = none ∨ ∃ g0 d0, acc = some (g0, d0) ∧ 0 < d0) →
        l.foldl (fun best g' =>
          match best with
          | none => some (g', manhattan_distance b g')
          | some gd =>
              if manhattan_distance b g' < gd.2 then
                some (g', manhattan_distance b g')
              else some gd) acc = some (b, 0) := by
  intro l
  induction l with
  | nil => intro hb; simp at hb
  | cons x rest ih =>
      intro hb acc hacc
      by_cases hbx : b = x
      · subst hbx
        simp only [List.foldl_cons]
        rcases hacc with rfl | ⟨g0, d0, rfl, hd0⟩
        · rw [manhattan_distance_self]
          exact bestGoalFold_freeze_zero rest
        · rw [manhattan_distance_self]
          simp only [hd0, if_pos]
          exact bestGoalFold_freeze_zero rest
      · have hbrest : b ∈ rest := by
          rcases List.mem_cons.mp hb with h | h
          · exact absurd h hbx
          · exact h
        simp only [List.foldl_cons]
        have hxpos : 0 < manhattan_distance b x := by
          rcases Nat.eq_zero_or_pos (manhattan_distance b x) with hz | hp
          · exact absurd ((manhattan_distance_eq_zero_iff b x).mp hz) hbx
          · exact hp
        rcases hacc with rfl | ⟨g0, d0, rfl, hd0⟩
        · exact ih hbrest _ (Or.inr ⟨x, _, rfl, hxpos⟩)
        · by_cases hlt : manhattan_distance b x < d0
          · simp only [hlt, if_true]
            exact ih hbrest _ (Or.inr ⟨x, _, rfl, hxpos⟩)
          · simp only [hlt, if_false]
            exact ih hbrest _ (Or.inr ⟨g0, d0, rfl, hd0⟩)

theorem bestGoalFold_self {b : Pos} {gs : List Pos} (hb : b ∈ gs) :
    bestGoalFold b gs = some (b, 0) :=
  bestGoalFold_reaches_self gs hb none (Or.inl rfl)

theorem minimum_matching_zero_iff :
    ∀ (bs gs : List Pos), bs.Nodup → gs.Nodup → bs.length ≤ gs.length →
      (minimum_matching_heuristic bs gs = 0 ↔ ∀ b ∈ bs, b ∈ gs) := by
  intro bs
  induction bs with
  | nil =>
      intro gs _ _ _
      simp [minimum_matching_heuristic]
  | cons b rest ih =>
      intro gs hndb hndg hlen
      have hgs : gs ≠ [] := by
        intro hc
        subst hc
        simp at hlen
      constructor
      · intro hz
        obtain ⟨gd, hgd⟩ := @bestGoalFold_ne_none b gs hgs
        simp only [minimum_matching_heuristic, hgd] at hz
        have hd0 : gd.2 = 0 := by omega
        have hrest0 : minimum_matching_heuristic rest (gs.erase gd.1) = 0 := by
          omega
        obtain ⟨hmemg, hdist⟩ := @bestGoalFold_spec b gs gd.1 gd.2
          (by simpa using hgd)
        have hbg : b = gd.1 :=
          (manhattan_distance_eq_zero_iff b gd.1).mp (hdist ▸ hd0)
        have hlen' : rest.length ≤ (gs.erase gd.1).length := by
          rw [List.length_erase_of_mem hmemg]
          simp only [List.length_cons] at hlen
          omega
        have hih := (ih (gs.erase gd.1) (List.nodup_cons.mp hndb).2
          (hndg.erase _) hlen').mp hrest0
        intro b' hb'
        rcases List.mem_cons.mp hb' with rfl | hb'
        · exact hbg ▸ hmemg
        · exact List.mem_of_mem_erase (hih b' hb')
      · intro hall
        have hb : b ∈ gs := hall b (List.mem_cons_self _ _)
        simp only [minimum_matching_heuristic, bestGoalFold_self hb]
        have hlen' : rest.length ≤ (gs.erase b).length := by
          rw [List.length_erase_of_mem hb]
          simp only [List.length_cons] at hlen
          omega
        have hrest : ∀ b' ∈ rest, b' ∈ gs.erase b := by
          intro b' hb'
          have hne : b' ≠ b := by
            intro hc
            subst hc
            exact (List.nodup_cons.mp hndb).1 hb'
          exact (List.mem_erase_of_ne hne).mpr (hall b' (List.mem_cons_of_mem _ hb'))
        have := (ih (gs.erase b) (List.nodup_cons.mp hndb).2
          (hndg.erase _) hlen').mpr hrest
        omega

theorem manhattan_heuristic_zero_iff (state : SokobanState)
    (goals : Finset Pos) :
    manhattan_heuristic state goals = 0 ↔ ∀ b ∈ state.boxes, b ∈ goals := by
  unfold manhattan_heuristic
  rw [Finset.sum_eq_zero_iff]
  constructor
  · intro hz b hb
    have hb0 := hz b hb
    have hne : goals.Nonempty := by
      rcases Finset.eq_empty_or_nonempty goals with rfl | hne
      · simp at hb0
      · exact hne
    obtain ⟨g, hg, hinf⟩ := Finset.exists_mem_eq_inf goals hne
      (fun g => ((manhattan_distance b g : Nat) : WithTop Nat))
    rw [hinf] at hb0
    have : manhattan_distance b g = 0 := by
      exact_mod_cast hb0
    exact ((manhattan_distance_eq_zero_iff b g).mp this) ▸ hg
  · intro hall b hb
    have hg := hall b hb
    have hle : Finset.inf goals
        (fun g => ((manhattan_distance b g : Nat) : WithTop Nat)) ≤
        ((manhattan_distance b b : Nat) : WithTop Nat) :=
      Finset.inf_le hg
    rw [manhattan_distance_self] at hle
    simpa using hle

theorem simple_count_heuristic_zero_iff (state : SokobanState)
    (goals : Finset Pos) :
    simple_count_heuristic state goals = 0 ↔ ∀ b ∈ state.boxes, b ∈ goals := by
  unfold simple_count_heuristic
  rw [Finset.card_eq_zero, Finset.filter_eq_empty_iff]
  simp

/- ------------------------------------------------------------------ -/
/- Sokoban transition lemmas                                           -/
/- ------------------------------------------------------------------ -/

theorem sokActions_legal {walls : Finset Pos} {s : SokobanState}
    {a : SokAction} (ha : a ∈ sokActions walls s) :
    (((s.player.1 + (dirOf a).1, s.player.2 + (dirOf a).2) : Pos) ∉ walls) ∧
    ((((s.player.1 + (dirOf a).1, s.player.2 + (dirOf a).2) : Pos) ∈ s.boxes) →
      ((((s.player.1 + (dirOf a).1 + (dirOf a).1,
          s.player.2 + (dirOf a).2 + (dirOf a).2) : Pos) ∉ walls) ∧
        (((s.player.1 + (dirOf a).1 + (dirOf a).1,
          s.player.2 + (dirOf a).2 + (dirOf a).2) : Pos) ∉ s.boxes))) := by
  have hp := (List.mem_filter.mp ha).2
  by_cases hw : ((s.player.1 + (dirOf a).1, s.player.2 + (dirOf a).2) : Pos) ∈ walls
  · simp only [hw, if_true] at hp
    exact absurd hp (by simp)
  · refine ⟨hw, ?_⟩
    intro hbx
    simp only [hw, if_false, hbx, if_true, Bool.not_eq_true', Bool.or_eq_false_iff,
      decide_eq_false_iff_not] at hp
    exact hp

theorem sokoban_push_boxes {s : SokobanState} {a : SokAction}
    (hbx : ((s.player.1 + (dirOf a).1, s.player.2 + (dirOf a).2) : Pos) ∈ s.boxes) :
    (sokResult s a).1.boxes =
      insert ((s.player.1 + (dirOf a).1 + (dirOf a).1,
        s.player.2 + (dirOf a).2 + (dirOf a).2) : Pos)
        (s.boxes.erase ((s.player.1 + (dirOf a).1, s.player.2 + (dirOf a).2) : Pos)) := by
  simp [sokResult, hbx]

theorem sokoban_nopush_boxes {s : SokobanState} {a : SokAction}
    (hbx : ((s.player.1 + (dirOf a).1, s.player.2 + (dirOf a).2) : Pos) ∉ s.boxes) :
    (sokResult s a).1.boxes = s.boxes := by
  simp [sokResult, hbx]

/- ------------------------------------------------------------------ -/
/- Metrics-offset simulation: solve ignores the starting metrics       -/
/- except for the never-reset nodes-expanded counter                   -/
/- ------------------------------------------------------------------ -/

theorem processAction_rel {σ α : Type} [DecidableEq σ] (P : Problem σ α)
    (h : σ → WithTop Nat) (node : Node σ α) (a : α) (d : Nat)
    (st st₁ : SearchState σ α) (hrel : SearchRel d st st₁) :
    SearchRel d (processAction P h node st a) (processAction P h node st₁ a) := by
  obtain ⟨hf, hfs, hex, hbr, htk, hpp, hm1, hm2, hm3, hm4⟩ := hrel
  simp only [processAction]
  rw [hex, hfs, hf]
  by_cases hexm : (P.result node.state a).1 ∈ st.explored
  · simp only [hexm, if_true]
    exact ⟨rfl, rfl, rfl, hbr, htk, hpp, hm1, by simp [hm2], by simp [hm3],
      by simp [hm4]⟩
  · simp only [hexm, if_false]
    rcases hl : fsLookup st.frontierStates (P.result node.state a).1 with _ | gf
    · simp only [hl]
      exact ⟨rfl, rfl, rfl, hbr, htk, hpp, hm1, by simp [hm2],
        by simp [hm3], by simp [hm4]⟩
    · simp only [hl]
      by_cases hlt : ((P.result node.state a).2 + node.g) < gf.1
      · simp only [Node.g_mk, hlt, if_true]
        exact ⟨rfl, rfl, rfl, hbr, htk, hpp, hm1, by simp [hm2],
          by simp [hm3], by simp [hm4]⟩
      · simp only [Node.g_mk, hlt, if_false]
        exact ⟨rfl, rfl, rfl, hbr, htk, hpp, hm1, by simp [hm2],
          by simp [hm3], by simp [hm4]⟩

theorem foldl_processAction_rel {σ α : Type} [DecidableEq σ] (P : Problem σ α)
    (h : σ → WithTop Nat) (node : Node σ α) (d : Nat) (acts : List α) :
    ∀ (st st₁ : SearchState σ α), SearchRel d st st₁ →
      SearchRel d (acts.foldl (processAction P h node) st)
        (acts.foldl (processAction P h node) st₁) := by
  induction acts with
  | nil => intro st st₁ hrel; exact hrel
  | cons a rest ih =>
      intro st st₁ hrel
      simp only [List.foldl_cons]
      exact ih _ _ (processAction_rel P h node a d st st₁ hrel)

theorem stepSearch_rel {σ α : Type} [DecidableEq σ] (P : Problem σ α)
    (h : σ → WithTop Nat) (clock : Nat → Bool) (d : Nat)
    (st st₁ : SearchState σ α) (hrel : SearchRel d st st₁) :
    (∀ su, stepSearch P h clock st = StepOut.next su →
      ∃ su₁, stepSearch P h clock st₁ = StepOut.next su₁ ∧ SearchRel d su su₁) ∧
    (∀ su r, stepSearch P h clock st = StepOut.halt su r →
      ∃ su₁ r₁, stepSearch P h clock st₁ = StepOut.halt su₁ r₁ ∧
        r₁.path = r.path ∧ r₁.actions = r.actions ∧
        MetricsRel d r.metrics r₁.metrics) := by
  obtain ⟨hf, hfs, hex, hbr, htk, hpp, hm1, hm2, hm3, hm4⟩ := hrel
  rcases hfr : st.frontier with _ | ⟨e, rest0⟩
  · have hstep₁ : stepSearch P h clock st₁ = StepOut.halt
        { st₁ with metrics := { st₁.metrics with total_time := st₁.ticks } }
        ⟨none, none, { st₁.metrics with total_time := st₁.ticks }⟩ := by
      simp only [stepSearch, hf, hfr]
    constructor
    · intro su hstep
      simp only [stepSearch, hfr] at hstep
      exact StepOut.noConfusion hstep
    · intro su r hstep
      simp only [stepSearch, hfr, StepOut.halt.injEq] at hstep
      obtain ⟨h1, h2⟩ := hstep
      subst h1
      subst h2
      exact ⟨_, _, hstep₁, rfl, rfl, hm1, hm2, hm3, hm4⟩
  · by_cases hck : clock st.ticks = true
    · have hstep₁ : stepSearch P h clock st₁ = StepOut.halt
          { st₁ with metrics := { st₁.metrics with
              timeout := true, total_time := st₁.ticks } }
          ⟨none, none, { st₁.metrics with
              timeout := true, total_time := st₁.ticks }⟩ := by
        simp only [stepSearch, hf, hfr, htk, hck, if_true]
      constructor
      · intro su hstep
        simp only [stepSearch, hfr, hck, if_true] at hstep
        exact StepOut.noConfusion hstep
      · intro su r hstep
        simp only [stepSearch, hfr, hck, if_true, StepOut.halt.injEq] at hstep
        obtain ⟨h1, h2⟩ := hstep
        subst h1
        subst h2
        exact ⟨_, _, hstep₁, rfl, rfl, hm1, hm2, hm3, hm4⟩
    · by_cases hg : P.goal_test (popMin1 e rest0).1.2.state = true
      · have hstep₁ : stepSearch P h clock st₁ = StepOut.halt
            { st₁ with
              frontier := (popMin1 e rest0).2,
              frontierStates := fsErase st₁.frontierStates
                (popMin1 e rest0).1.2.state,
              metrics := { st₁.metrics with
                max_memory_nodes := st₁.metrics.max_memory_nodes ⊔
                  ((e :: rest0).length + st₁.explored.card),
                nodes_expanded := st₁.metrics.nodes_expanded + 1,
                success := true,
                total_time := st₁.ticks,
                solution_length :=
                  (extractSolution (popMin1 e rest0).1.2).2.length,
                avg_branching_factor :=
                  if st₁.branching.isEmpty then
                    st₁.metrics.avg_branching_factor
                  else ((st₁.branching.sum : Rat) / (st₁.branching.length : Rat)) },
              popped := st₁.popped ++ [(popMin1 e rest0).1.2.state] }
            ⟨some (extractSolution (popMin1 e rest0).1.2).1,
              some (extractSolution (popMin1 e rest0).1.2).2,
              { st₁.metrics with
                max_memory_nodes := st₁.metrics.max_memory_nodes ⊔
                  ((e :: rest0).length + st₁.explored.card),
                nodes_expanded := st₁.metrics.nodes_expanded + 1,
                success := true,
                total_time := st₁.ticks,
                solution_length :=
                  (extractSolution (popMin1 e rest0).1.2).2.length,
                avg_branching_factor :=
                  if st₁.branching.isEmpty then
                    st₁.metrics.avg_branching_factor
                  else ((st₁.branching.sum : Rat) / (st₁.branching.length : Rat)) }⟩ := by
          simp only [stepSearch, hf, hfr, htk, hck, if_false,
            Bool.false_eq_true, hg, if_true]
        constructor
        · intro su hstep
          simp only [stepSearch, hfr, hck, if_false, Bool.false_eq_true, hg,
            if_true] at hstep
          exact StepOut.noConfusion hstep
        · intro su r hstep
          simp only [stepSearch, hfr, hck, if_false, Bool.false_eq_true, hg,
            if_true, StepOut.halt.injEq] at hstep
          obtain ⟨h1, h2⟩ := hstep
          subst h1
          subst h2
          refine ⟨_, _, hstep₁, ?_, ?_, ?_, ?_, ?_, ?_⟩
          · rfl
          · rfl
          · show st₁.metrics.nodes_expanded + 1 =
              st.metrics.nodes_expanded + 1 + d
            omega
          · exact hm2
          · exact hm3
          · show st₁.metrics.max_memory_nodes ⊔ _ =
              st.metrics.max_memory_nodes ⊔ _
            rw [hm4, hex]
      · rw [Bool.not_eq_true] at hg
        have hrelMid : SearchRel d
            { frontier := (popMin1 e rest0).2,
              frontierStates := fsErase st.frontierStates
                (popMin1 e rest0).1.2.state,
              explored := insert (popMin1 e rest0).1.2.state st.explored,
              branching := st.branching ++
                [(P.actions (popMin1 e rest0).1.2.state).length],
              metrics := { st.metrics with
                max_memory_nodes := st.metrics.max_memory_nodes ⊔
                  ((e :: rest0).length + st.explored.card),
                nodes_expanded := st.metrics.nodes_expanded + 1 },
              ticks := st.ticks,
              popped := st.popped ++ [(popMin1 e rest0).1.2.state] }
            { frontier := (popMin1 e rest0).2,
              frontierStates := fsErase st₁.frontierStates
                (popMin1 e rest0).1.2.state,
              explored := insert (popMin1 e rest0).1.2.state st₁.explored,
              branching := st₁.branching ++
                [(P.actions (popMin1 e rest0).1.2.state).length],
              metrics := { st₁.metrics with
                max_memory_nodes := st₁.metrics.max_memory_nodes ⊔
                  ((e :: rest0).length + st₁.explored.card),
                nodes_expanded := st₁.metrics.nodes_expanded + 1 },
              ticks := st₁.ticks,
              popped := st₁.popped ++ [(popMin1 e rest0).1.2.state] } := by
          refine ⟨rfl, by rw [hfs], by rw [hex], by rw [hbr], htk, by rw [hpp],
            ?_, ?_, ?_, ?_⟩
          · show st₁.metrics.nodes_expanded + 1 =
              st.metrics.nodes_expanded + 1 + d
            omega
          · exact hm2
          · exact hm3
          · show st₁.metrics.max_memory_nodes ⊔ _ =
              st.metrics.max_memory_nodes ⊔ _
            rw [hm4, hex]
        have hrelEnd := foldl_processAction_rel P h (popMin1 e rest0).1.2 d
          (P.actions (popMin1 e rest0).1.2.state) _ _ hrelMid
        have hstep₁ : stepSearch P h clock st₁ = StepOut.next
            { (P.actions (popMin1 e rest0).1.2.state).foldl
                (processAction P h (popMin1 e rest0).1.2)
                { frontier := (popMin1 e rest0).2,
                  frontierStates := fsErase st₁.frontierStates
                    (popMin1 e rest0).1.2.state,
                  explored := insert (popMin1 e rest0).1.2.state st₁.explored,
                  branching := st₁.branching ++
                    [(P.actions (popMin1 e rest0).1.2.state).length],
                  metrics := { st₁.metrics with
                    max_memory_nodes := st₁.metrics.max_memory_nodes ⊔
                      ((e :: rest0).length + st₁.explored.card),
                    nodes_expanded := st₁.metrics.nodes_expanded + 1 },
                  ticks := st₁.ticks,
                  popped := st₁.popped ++ [(popMin1 e rest0).1.2.state] } with
              ticks := ((P.actions (popMin1 e rest0).1.2.state).foldl
                (processAction P h (popMin1 e rest0).1.2)
                { frontier := (popMin1 e rest0).2,
                  frontierStates := fsErase st₁.frontierStates
                    (popMin1 e rest0).1.2.state,
                  explored := insert (popMin1 e rest0).1.2.state st₁.explored,
                  branching := st₁.branching ++
                    [(P.actions (popMin1 e rest0).1.2.state).length],
                  metrics := { st₁.metrics with
                    max_memory_nodes := st₁.metrics.max_memory_nodes ⊔
                      ((e :: rest0).length + st₁.explored.card),
                    nodes_expanded := st₁.metrics.nodes_expanded + 1 },
                  ticks := st₁.ticks,
                  popped := st₁.popped ++
                    [(popMin1 e rest0).1.2.state] }).ticks + 1 } := by
          simp only [stepSearch, hf, hfr, htk, hck, if_false,
            Bool.false_eq_true, hg]
        constructor
        · intro su hstep
          simp only [stepSearch, hfr, hck, if_false, Bool.false_eq_true, hg,
            StepOut.next.injEq] at hstep
          subst hstep
          obtain ⟨k1, k2, k3, k4, k5, k6, k7, k8, k9, k10⟩ := hrelEnd
          exact ⟨_, hstep₁, k1, k2, k3, k4, by rw [k5], k6, k7, k8, k9, k10⟩
        · intro su r hstep
          simp only [stepSearch, hfr, hck, if_false, Bool.false_eq_true,
            hg] at hstep
          exact StepOut.noConfusion hstep

theorem solveAux_rel {σ α : Type} [DecidableEq σ] (P : Problem σ α)
    (h : σ → WithTop Nat) (clock : Nat → Bool) (d : Nat) :
    ∀ (fuel : Nat) (st st₁ : SearchState σ α), SearchRel d st st₁ →
      ∀ (st' : SearchState σ α) (r : SolveReturn σ α),
        solveAux P h clock fuel st = some (st', r) →
        ∃ st₁' r₁, solveAux P h clock fuel st₁ = some (st₁', r₁) ∧
          r₁.path = r.path ∧ r₁.actions = r.actions ∧
          MetricsRel d r.metrics r₁.metrics := by
  intro fuel
  induction fuel with
  | zero => intro st st₁ _ st' r hrun; simp [solveAux] at hrun
  | succ n ih =>
      intro st st₁ hrel st' r hrun
      rcases hstep : stepSearch P h clock st with su | ⟨su, ru⟩
      · obtain ⟨su₁, hstep₁, hrel'⟩ :=
          (stepSearch_rel P h clock d st st₁ hrel).1 su hstep
        simp only [solveAux, hstep] at hrun
        obtain ⟨st₁', r₁, hrun₁, hp, ha, hmr⟩ := ih su su₁ hrel' st' r hrun
        refine ⟨st₁', r₁, ?_, hp, ha, hmr⟩
        simp only [solveAux, hstep₁]
        exact hrun₁
      · obtain ⟨su₁, r₁, hstep₁, hp, ha, hmr⟩ :=
          (stepSearch_rel P h clock d st st₁ hrel).2 su ru hstep
        simp only [solveAux, hstep, Option.some.injEq, Prod.mk.injEq] at hrun
        obtain ⟨h1, h2⟩ := hrun
        subst h1
        subst h2
        refine ⟨su₁, r₁, ?_, hp, ha, hmr⟩
        simp only [solveAux, hstep₁]

theorem initSearch_rel {σ α : Type} [DecidableEq σ] (P : Problem σ α)
    (h : σ → WithTop Nat) (m0 : AStarMetrics) :
    SearchRel m0.nodes_expanded (initSearch P h {}) (initSearch P h m0) := by
  refine ⟨rfl, rfl, rfl, rfl, rfl, rfl, ?_, rfl, rfl, rfl⟩
  show m0.nodes_expanded = 0 + m0.nodes_expanded
  omega

theorem statesAlong_head {σ α : Type} (P : Problem σ α) (s : σ)
    (acts : List α) : (statesAlong P s acts).head? = some s := by
  cases acts <;> simp [statesAlong]

/- ------------------------------------------------------------------ -/
/- Claim theorems                                                      -/
/- ------------------------------------------------------------------ -/

/-- C1.  For every Sokoban instance on which `solve` returns success (a
populated path and action list), replaying the returned actions in order
from the initial state via `result` visits exactly the returned path,
starts at the initial state, and ends in a state whose boxes equal the
goal set (`boxes == goals`), with `success = True` in the metrics. -/
theorem astar_sokoban_solution_reaches_goal (walls goals : Finset Pos)
    (s0 : SokobanState) (h : SokobanState → WithTop Nat) (clock : Nat → Bool)
    (fuel : Nat) (st' : SearchState SokobanState SokAction)
    (r : SolveReturn SokobanState SokAction)
    (hrun : solveFrom (sokProblem walls goals s0) h clock fuel {} =
      some (st', r))
    (path : List SokobanState) (acts : List SokAction)
    (hp : r.path = some path) (ha : r.actions = some acts) :
    path = statesAlong (sokProblem walls goals s0) s0 acts ∧
    path.head? = some s0 ∧
    (runActions (sokProblem walls goals s0) s0 acts).boxes = goals ∧
    r.metrics.success = true := by
  obtain ⟨hrm, hexp, hgen, hnodup, hcase⟩ :=
    solveFrom_spec _ h clock {} fuel st' r hrun
  rcases hcase with ⟨hpn, _⟩ | ⟨n, hvn, hgt, hpathn, hactsn, hsucc, _⟩
  · rw [hp] at hpn
    exact absurd hpn (by simp)
  · rw [hp] at hpathn
    rw [ha] at hactsn
    have hpath' : path = (extractSolution n).1 := by
      injection hpathn
    have hacts' : acts = (extractSolution n).2 := by
      injection hactsn
    obtain ⟨hstates, hruneq⟩ :=
      extractSolution_of_valid (sokProblem walls goals s0) n hvn
    subst hpath'
    subst hacts'
    refine ⟨hstates, ?_, ?_, ?_⟩
    · rw [hstates]
      exact statesAlong_head _ _ _
    · have : sokIsGoal goals n.state = true := hgt
      have hboxes : n.state.boxes = goals := of_decide_eq_true this
      rw [show runActions (sokProblem walls goals s0) s0 (extractSolution n).2
          = n.state from hruneq]
      exact hboxes
    · rw [hrm]
      exact hsucc

/-- C2 (amended).  Starting from the freshly initialized metrics, every
completed `solve` call satisfies `nodes_expanded <= nodes_generated`; no
state is popped twice; and `nodes_expanded` equals the number of states
moved into the Explored set, plus one exactly when the search succeeded
(the goal node is popped and counted as expanded but never moved into
Explored). -/
theorem astar_expansion_counts (σ α : Type) [DecidableEq σ]
    (P : Problem σ α) (h : σ → WithTop Nat) (clock : Nat → Bool) (fuel : Nat)
    (st' : SearchState σ α) (r : SolveReturn σ α)
    (hrun : solveFrom P h clock fuel {} = some (st', r)) :
    r.metrics.nodes_expanded ≤ r.metrics.nodes_generated ∧
    st'.popped.Nodup ∧
    r.metrics.nodes_expanded =
      st'.explored.card + (if r.metrics.success = true then 1 else 0) := by
  obtain ⟨hrm, hexp, hgen, hnodup, hcase⟩ :=
    solveFrom_spec P h clock {} fuel st' r hrun
  have hexp0 : st'.metrics.nodes_expanded = st'.popped.length := by
    simpa using hexp
  refine ⟨?_, hnodup, ?_⟩
  · rw [hrm, hexp0]
    exact hgen
  · rcases hcase with ⟨_, _, hsucc, hexpl, _⟩ | ⟨n, _, _, _, _, hsucc, _, _,
      hne, _, hexpl, _⟩
    · rw [hrm, hexp0, hexpl, List.toFinset_card_of_nodup hnodup]
      have hsucc' : st'.metrics.success = false := by
        simpa using hsucc
      simp [hsucc']
    · rw [hrm, hexp0, hexpl]
      have hndrop : st'.popped.dropLast.Nodup :=
        hnodup.sublist (List.dropLast_sublist _)
      rw [List.toFinset_card_of_nodup hndrop, List.length_dropLast]
      simp only [hsucc, if_true]
      have : 1 ≤ st'.popped.length := by
        rcases hpp : st'.popped with _ | ⟨x, xs⟩
        · exact absurd hpp hne
        · simp
      omega

/-- C5 (amended).  The branching-factor samples collect one entry per
expansion (the size of `actions(state)` for each state moved into
Explored), but `avg_branching_factor` in the returned metrics is their
average only when the search succeeds with at least one sample; on the
Exhausted and TimedOut outcomes (and on an immediate-goal success with no
samples) the field keeps its initial value `0.0`. -/
theorem astar_avg_branching_factor (σ α : Type) [DecidableEq σ]
    (P : Problem σ α) (h : σ → WithTop Nat) (clock : Nat → Bool) (fuel : Nat)
    (st' : SearchState σ α) (r : SolveReturn σ α)
    (hrun : solveFrom P h clock fuel {} = some (st', r)) :
    (r.metrics.success = false →
      st'.branching = st'.popped.map (fun s => (P.actions s).length) ∧
      r.metrics.avg_branching_factor = 0) ∧
    (r.metrics.success = true →
      st'.branching = st'.popped.dropLast.map (fun s => (P.actions s).length) ∧
      r.metrics.avg_branching_factor =
        (if st'.branching = [] then 0 else branchingAvg st'.branching)) := by
  obtain ⟨hrm, hexp, hgen, hnodup, hcase⟩ :=
    solveFrom_spec P h clock {} fuel st' r hrun
  rcases hcase with ⟨_, _, hsucc, _, hbr, havg, _⟩ |
    ⟨n, _, _, _, _, hsucc, _, _, _, _, _, hbr, havg⟩
  · constructor
    · intro _
      refine ⟨hbr, ?_⟩
      rw [hrm]
      simpa using havg
    · intro hcontra
      rw [hrm] at hcontra
      rw [hcontra] at hsucc
      exact absurd hsucc.symm (by simp)
  · constructor
    · intro hcontra
      rw [hrm] at hcontra
      rw [hcontra] at hsucc
      exact absurd hsucc (by simp)
    · intro _
      refine ⟨hbr, ?_⟩
      rw [hrm, havg]
      rcases hbe : st'.branching with _ | ⟨x, xs⟩
      · simp
      · simp [List.isEmpty_cons]

/-- C9.  For every `solve` invocation on a fresh solver, the returned
`path` and `actions` are `None` together exactly when the search failed
(`success = False`), and populated together on success; the metrics record
is always returned; and the two failure outcomes differ only in the
`timeout` flag: the timed-out return has `timeout = True` (with a nonempty
frontier remaining), while frontier exhaustion has `timeout = False` (with
an empty final frontier). -/
theorem astar_outcome_shape (σ α : Type) [DecidableEq σ]
    (P : Problem σ α) (h : σ → WithTop Nat) (clock : Nat → Bool) (fuel : Nat)
    (st' : SearchState σ α) (r : SolveReturn σ α)
    (hrun : solveFrom P h clock fuel {} = some (st', r)) :
    ((r.path = none ∧ r.actions = none ∧ r.metrics.success = false) ∨
      (∃ p a, r.path = some p ∧ r.actions = some a ∧
        r.metrics.success = true)) ∧
    (r.metrics.success = false →
      ((r.metrics.timeout = false ∧ st'.frontier = []) ∨
        (r.metrics.timeout = true ∧ st'.frontier ≠ []))) ∧
    (r.metrics.success = true → r.metrics.timeout = false) := by
  obtain ⟨hrm, hexp, hgen, hnodup, hcase⟩ :=
    solveFrom_spec P h clock {} fuel st' r hrun
  rcases hcase with ⟨hpn, han, hsucc, _, _, _, hout⟩ |
    ⟨n, _, _, hpath, hacts, hsucc, htim, _⟩
  · have hsucc' : r.metrics.success = false := by
      rw [hrm]
      simpa using hsucc
    refine ⟨Or.inl ⟨hpn, han, hsucc'⟩, ?_, ?_⟩
    · intro _
      rcases hout with ⟨hfr, htm⟩ | ⟨hfr, htm⟩
      · refine Or.inl ⟨?_, hfr⟩
        rw [hrm]
        simpa using htm
      · refine Or.inr ⟨?_, hfr⟩
        rw [hrm]
        exact htm
    · intro hcontra
      rw [hcontra] at hsucc'
      exact absurd hsucc' (by simp)
  · have hsucc' : r.metrics.success = true := by
      rw [hrm]
      exact hsucc
    refine ⟨Or.inr ⟨_, _, hpath, hacts, hsucc'⟩, ?_, ?_⟩
    · intro hcontra
      rw [hcontra] at hsucc'
      exact absurd hsucc'.symm (by simp)
    · intro _
      rw [hrm]
      rw [htim]

/-- C3 (code bug).  On a level whose parse yields no player cell, the
`SokobanProblem` constructor succeeds silently: it stores `player = None`
(and an initial state with no player) instead of surfacing an
`InvalidLevel` error to the caller.  This theorem evaluates the
constructor on such a level: construction is a total function and the
resulting instance simply has no player. -/
theorem sokoban_missing_player_not_rejected :
    (SokobanProblem.ofLevel NOPLAYER).player = none ∧
    (SokobanProblem.ofLevel NOPLAYER).boxes = {((1 : Int), (1 : Int))} ∧
    (SokobanProblem.ofLevel NOPLAYER).goals = {((1 : Int), (3 : Int))} ∧
    (SokobanProblem.ofLevel NOPLAYER).initialState = none := by
  decide

/-- C7 (counterexample).  The greedy-matching heuristic returns 0 on a
configuration where a box occupies no goal cell: with one box at the
origin and an empty goal set, every box finds no unclaimed goal and
contributes nothing, so the estimator returns 0 although the box is
off-goal (the claimed "returns 0 exactly when every box occupies a goal
cell" fails). -/
theorem minimum_matching_zero_off_goal :
    minimum_matching_heuristic [((0 : Int), (0 : Int))] [] = 0 ∧
    ((0 : Int), (0 : Int)) ∉ ([] : List Pos) := by
  decide

/-- C7 (amended).  The sum-of-nearest and unmet-goal-count estimators
return 0 exactly when every box occupies a goal cell; the greedy-matching
estimator satisfies the same equivalence provided there are at least as
many goals as boxes (so every box claims a goal); with fewer goals than
boxes, leftover boxes contribute 0 and the estimator can return 0 with
boxes off-goal.  In particular all three return 0 on any goal state. -/
theorem heuristics_zero_iff :
    (∀ (state : SokobanState) (goals : Finset Pos),
      manhattan_heuristic state goals = 0 ↔ ∀ b ∈ state.boxes, b ∈ goals) ∧
    (∀ (state : SokobanState) (goals : Finset Pos),
      simple_count_heuristic state goals = 0 ↔ ∀ b ∈ state.boxes, b ∈ goals) ∧
    (∀ (bs gs : List Pos), bs.Nodup → gs.Nodup → bs.length ≤ gs.length →
      (minimum_matching_heuristic bs gs = 0 ↔ ∀ b ∈ bs, b ∈ gs)) :=
  ⟨manhattan_heuristic_zero_iff, simple_count_heuristic_zero_iff,
    minimum_matching_zero_iff⟩

/-- C7 (witness). -/
theorem heuristics_zero_iff_witness :
    (manhattan_heuristic ⟨{((1 : Int), (3 : Int))}, (1, 2)⟩
      {((1 : Int), (3 : Int))} = 0) ∧
    (simple_count_heuristic ⟨{((1 : Int), (3 : Int))}, (1, 2)⟩
      {((1 : Int), (3 : Int))} = 0) ∧
    ([((1 : Int), (3 : Int))].Nodup ∧
      [((1 : Int), (3 : Int)), ((0 : Int), (0 : Int))].Nodup ∧
      ([((1 : Int), (3 : Int))] : List Pos).length ≤
        [((1 : Int), (3 : Int)), ((0 : Int), (0 : Int))].length) ∧
    (minimum_matching_heuristic [((1 : Int), (3 : Int))]
      [((1 : Int), (3 : Int)), ((0 : Int), (0 : Int))] = 0) := by
  refine ⟨?_, ?_, ⟨by decide, by decide, by decide⟩, ?_⟩
  · exact (heuristics_zero_iff.1 _ _).mpr (by decide)
  · exact (heuristics_zero_iff.2.1 _ _).mpr (by decide)
  · exact (heuristics_zero_iff.2.2 _ _ (by decide) (by decide)
      (by decide)).mpr (by decide)

/-- C10.  For every Sokoban state whose boxes avoid walls and whose player
is off the walls, any action listed by `actions` leads via `result` to a
state with the same number of boxes, boxes still disjoint from the walls,
and the player still off the walls: legal transitions never lose, merge,
or embed boxes in walls. -/
theorem sokoban_result_preserves_invariants (walls : Finset Pos)
    (s : SokobanState) (a : SokAction)
    (hboxes : ∀ b ∈ s.boxes, b ∉ walls) (hplayer : s.player ∉ walls)
    (ha : a ∈ sokActions walls s) :
    (sokResult s a).1.boxes.card = s.boxes.card ∧
    (∀ b ∈ (sokResult s a).1.boxes, b ∉ walls) ∧
    (sokResult s a).1.player ∉ walls := by
  obtain ⟨hnw, hpush⟩ := sokActions_legal ha
  have hplayer' : (sokResult s a).1.player =
      ((s.player.1 + (dirOf a).1, s.player.2 + (dirOf a).2) : Pos) := rfl
  by_cases hbx : ((s.player.1 + (dirOf a).1, s.player.2 + (dirOf a).2) : Pos)
      ∈ s.boxes
  · obtain ⟨hnbw, hnbb⟩ := hpush hbx
    rw [sokoban_push_boxes hbx] at *
    have hnberase : ((s.player.1 + (dirOf a).1 + (dirOf a).1,
        s.player.2 + (dirOf a).2 + (dirOf a).2) : Pos) ∉
        s.boxes.erase ((s.player.1 + (dirOf a).1,
          s.player.2 + (dirOf a).2) : Pos) := by
      intro hc
      exact hnbb (Finset.mem_of_mem_erase hc)
    refine ⟨?_, ?_, ?_⟩
    · rw [Finset.card_insert_of_not_mem hnberase,
        Finset.card_erase_of_mem hbx]
      have : 0 < s.boxes.card := Finset.card_pos.mpr ⟨_, hbx⟩
      omega
    · intro b hb
      rcases Finset.mem_insert.mp hb with rfl | hb
      · exact hnbw
      · exact hboxes b (Finset.mem_of_mem_erase hb)
    · rw [hplayer']
      exact hnw
  · rw [sokoban_nopush_boxes hbx]
    exact ⟨rfl, hboxes, hplayer' ▸ hnw⟩

/-- C10 (witness): the initial `LEVEL_1` state and the RIGHT push. -/
theorem sokoban_result_preserves_invariants_witness :
    (∀ b ∈ lvl1Init.boxes, b ∉ lvl1Data.walls) ∧
    lvl1Init.player ∉ lvl1Data.walls ∧
    SokAction.RIGHT ∈ sokActions lvl1Data.walls lvl1Init ∧
    ((sokResult lvl1Init SokAction.RIGHT).1.boxes.card =
        lvl1Init.boxes.card ∧
      (∀ b ∈ (sokResult lvl1Init SokAction.RIGHT).1.boxes,
        b ∉ lvl1Data.walls) ∧
      (sokResult lvl1Init SokAction.RIGHT).1.player ∉ lvl1Data.walls) :=
  ⟨by decide, by decide, by decide,
    sokoban_result_preserves_invariants lvl1Data.walls lvl1Init
      SokAction.RIGHT (by decide) (by decide) (by decide)⟩

/-- C4 (amended).  Running the engine twice on the same problem with the
same heuristic yields identical results when each run uses a freshly
constructed solver (the embedded `solve` is a pure function of the
problem, heuristic, clock and fuel).  If instead the second call reuses
the same solver object, its metrics record carries over: the run itself
(path, actions, generated count) is unchanged, but the reported
`nodes_expanded` is offset by the previous call's count, because `solve`
resets `nodes_generated`, `max_frontier_size` and `max_memory_nodes` on
entry but only ever increments `nodes_expanded`. -/
theorem astar_rerun_determinism (σ α : Type) [DecidableEq σ]
    (P : Problem σ α) (h : σ → WithTop Nat) (clock : Nat → Bool)
    (fuel : Nat) :
    solve P h clock fuel = solve P h clock fuel ∧
    (∀ (m0 : AStarMetrics) (st0 : SearchState σ α) (r0 : SolveReturn σ α),
      solveFrom P h clock fuel {} = some (st0, r0) →
      ∃ st1 r1, solveFrom P h clock fuel m0 = some (st1, r1) ∧
        r1.path = r0.path ∧ r1.actions = r0.actions ∧
        r1.metrics.nodes_expanded =
          r0.metrics.nodes_expanded + m0.nodes_expanded ∧
        r1.metrics.nodes_generated = r0.metrics.nodes_generated) := by
  refine ⟨rfl, ?_⟩
  intro m0 st0 r0 hrun
  obtain ⟨st1, r1, hrun1, hp, ha, hm⟩ :=
    solveAux_rel P h clock m0.nodes_expanded fuel _ _ (initSearch_rel P h m0)
      st0 r0 hrun
  exact ⟨st1, r1, hrun1, hp, ha, hm.1, hm.2.1⟩

/-- C6.  For a generated successor that is not in the Explored set:
if its state is recorded in the frontier index with a strictly worse `g`,
the stale frontier entry is removed and the new entry inserted (afterwards
every frontier entry for that state carries the new `g`, and the index
records the new `(g, f)`); if it is recorded with an equal-or-better `g`,
the frontier and the index are left untouched; if it is absent, the new
entry is appended unconditionally and indexed. -/
theorem frontier_decrease_or_skip (σ α : Type) [DecidableEq σ]
    (P : Problem σ α) (h : σ → WithTop Nat) (node : Node σ α)
    (st : SearchState σ α) (a : α)
    (hnd : (st.frontier.map entryState).Nodup)
    (hkeys : ∀ s, (fsLookup st.frontierStates s).isSome = true ↔
      s ∈ st.frontier.map entryState)
    (hnex : (P.result node.state a).1 ∉ st.explored) :
    (∀ g0 f0,
      fsLookup st.frontierStates (P.result node.state a).1 = some (g0, f0) →
      (((P.result node.state a).2 + node.g < g0 →
        (processAction P h node st a).frontier =
          removeFirstByState st.frontier (P.result node.state a).1 ++
            [(fval h (Node.mk (P.result node.state a).1 (some node) (some a)
                ((P.result node.state a).2 + node.g)),
              Node.mk (P.result node.state a).1 (some node) (some a)
                ((P.result node.state a).2 + node.g))] ∧
        (∀ e ∈ (processAction P h node st a).frontier,
          e.2.state = (P.result node.state a).1 →
          e.2.g = (P.result node.state a).2 + node.g) ∧
        fsLookup (processAction P h node st a).frontierStates
            (P.result node.state a).1 =
          some ((P.result node.state a).2 + node.g,
            fval h (Node.mk (P.result node.state a).1 (some node) (some a)
              ((P.result node.state a).2 + node.g)))) ∧
      (¬((P.result node.state a).2 + node.g < g0) →
        (processAction P h node st a).frontier = st.frontier ∧
        (processAction P h node st a).frontierStates =
          st.frontierStates))) ∧
    (fsLookup st.frontierStates (P.result node.state a).1 = none →
      (processAction P h node st a).frontier =
        st.frontier ++
          [(fval h (Node.mk (P.result node.state a).1 (some node) (some a)
              ((P.result node.state a).2 + node.g)),
            Node.mk (P.result node.state a).1 (some node) (some a)
              ((P.result node.state a).2 + node.g))] ∧
      fsLookup (processAction P h node st a).frontierStates
          (P.result node.state a).1 =
        some ((P.result node.state a).2 + node.g,
          fval h (Node.mk (P.result node.state a).1 (some node) (some a)
            ((P.result node.state a).2 + node.g)))) := by
  constructor
  · intro g0 f0 hl
    constructor
    · intro hlt
      have hmem : (P.result node.state a).1 ∈ st.frontier.map entryState := by
        rw [← hkeys, hl]
        rfl
      simp only [processAction, if_neg hnex, hl, Node.g_mk, if_pos hlt,
        remove_from_frontier_of_mem _ _ _ hmem]
      refine ⟨trivial, ?_, ?_⟩
      · intro e he hes
        rcases List.mem_append.mp he with he | he
        · exfalso
          have : e.2.state ∈ (removeFirstByState st.frontier
              (P.result node.state a).1).map entryState :=
            List.mem_map_of_mem entryState he
          rw [removeFirstByState_map] at this
          rw [hes] at this
          exact (hnd.mem_erase_iff.mp this).1 rfl
        · rcases List.mem_singleton.mp he with rfl
          rfl
      · exact fsLookup_fsSet_self _ _ _
    · intro hge
      simp only [processAction, if_neg hnex, hl, Node.g_mk, if_neg hge]
      exact ⟨trivial, trivial⟩
  · intro hl
    simp only [processAction, if_neg hnex, hl]
    exact ⟨trivial, fsLookup_fsSet_self _ _ _⟩

/-- C8.  Throughout every run: the states popped from the frontier are
pairwise distinct (no state is expanded twice), no frontier entry's state
is in the Explored set (a state in Explored is never re-inserted), and
Explored is exactly the set of states popped so far.  Moreover, a
generated successor whose state is already explored is discarded: the
frontier, its index and the explored set are untouched (only
`nodes_generated` is incremented). -/
theorem astar_no_reopening (σ α : Type) [DecidableEq σ]
    (P : Problem σ α) (h : σ → WithTop Nat) (clock : Nat → Bool)
    (m0 : AStarMetrics) :
    (∀ (k : Nat) (st' : SearchState σ α),
      iterateSearch P h clock k (initSearch P h m0) = some st' →
      st'.popped.Nodup ∧
      (∀ e ∈ st'.frontier, e.2.state ∉ st'.explored) ∧
      st'.explored = st'.popped.toFinset) ∧
    (∀ (st : SearchState σ α) (node : Node σ α) (a : α),
      (P.result node.state a).1 ∈ st.explored →
      (processAction P h node st a).frontier = st.frontier ∧
      (processAction P h node st a).frontierStates = st.frontierStates ∧
      (processAction P h node st a).explored = st.explored ∧
      (processAction P h node st a).metrics.nodes_expanded =
        st.metrics.nodes_expanded ∧
      (processAction P h node st a).metrics.nodes_generated =
        st.metrics.nodes_generated + 1) := by
  constructor
  · intro k st' hrun
    have hinv := iterateSearch_inv P h clock m0 k _ st'
      (initSearch_inv P h m0) hrun
    exact ⟨hinv.nodupPopped, hinv.fr.disjointExplored, hinv.exploredEq⟩
  · intro st node a hmem
    refine ⟨?_, ?_, ?_, ?_, ?_⟩ <;> simp [processAction, if_pos hmem]

/-- C8 (witness): two iterations of the corridor run, and the discarding
of an already-explored successor there. -/
theorem astar_no_reopening_witness :
    (iterateSearch corrProblem corrHeur noTimeout 2
        (initSearch corrProblem corrHeur {}) = some corrIter2 ∧
      corrIter2.popped.Nodup ∧
      corrIter2.explored = corrIter2.popped.toFinset) ∧
    ((corrProblem.result
        ((Node.mk ⟨{((1 : Int), (3 : Int))}, ((1 : Int), (1 : Int))⟩
          none none 0 : Node SokobanState SokAction)).state
          SokAction.RIGHT).1 ∈ corrIter2.explored ∧
      (processAction corrProblem corrHeur
          (Node.mk ⟨{((1 : Int), (3 : Int))}, ((1 : Int), (1 : Int))⟩
            none none 0 : Node SokobanState SokAction)
          corrIter2 SokAction.RIGHT).frontier = corrIter2.frontier ∧
      (processAction corrProblem corrHeur
          (Node.mk ⟨{((1 : Int), (3 : Int))}, ((1 : Int), (1 : Int))⟩
            none none 0 : Node SokobanState SokAction)
          corrIter2 SokAction.RIGHT).explored = corrIter2.explored) := by
  constructor
  · have hpart := (astar_no_reopening SokobanState SokAction corrProblem
      corrHeur noTimeout {}).1 2 corrIter2 rfl
    exact ⟨rfl, hpart.1, hpart.2.2⟩
  · have hmem : (corrProblem.result
        ((Node.mk ⟨{((1 : Int), (3 : Int))}, ((1 : Int), (1 : Int))⟩
          none none 0 : Node SokobanState SokAction)).state
          SokAction.RIGHT).1 ∈ corrIter2.explored := by
      decide
    have hpart := (astar_no_reopening SokobanState SokAction corrProblem
      corrHeur noTimeout {}).2 corrIter2
      (Node.mk ⟨{((1 : Int), (3 : Int))}, ((1 : Int), (1 : Int))⟩ none none 0)
      SokAction.RIGHT hmem
    exact ⟨hmem, hpart.1, hpart.2.2.1⟩

/-- C2 (counterexample).  On `LEVEL_1`, a successful fresh run pops two
nodes (`nodes_expanded = 2`) but moves only one state into the Explored
set: the goal node is counted as expanded yet never enters Explored, so
`nodes_expanded` does not equal the number of states moved from Frontier
to Explored. -/
theorem astar_expanded_vs_explored_counterexample :
    solveFrom lvl1Problem lvl1Heur noTimeout 10 {} =
      some (lvl1Pair.1, lvl1Pair.2) ∧
    lvl1Pair.2.metrics.nodes_expanded = 2 ∧
    lvl1Pair.1.explored.card = 1 ∧
    lvl1Pair.2.metrics.nodes_expanded ≠ lvl1Pair.1.explored.card := by
  refine ⟨rfl, by decide, by decide, by decide⟩

/-- C1 (witness): the `LEVEL_1` run. -/
theorem astar_sokoban_solution_reaches_goal_witness :
    solveFrom lvl1Problem lvl1Heur noTimeout 10 {} =
      some (lvl1Pair.1, lvl1Pair.2) ∧
    lvl1Pair.2.path =
      some [lvl1Init, ⟨{((1 : Int), (3 : Int))}, ((1 : Int), (2 : Int))⟩] ∧
    lvl1Pair.2.actions = some [SokAction.RIGHT] ∧
    ([lvl1Init, ⟨{((1 : Int), (3 : Int))}, ((1 : Int), (2 : Int))⟩] =
        statesAlong lvl1Problem lvl1Init [SokAction.RIGHT] ∧
      [lvl1Init,
        (⟨{((1 : Int), (3 : Int))}, ((1 : Int), (2 : Int))⟩ : SokobanState)].head? =
        some lvl1Init ∧
      (runActions lvl1Problem lvl1Init [SokAction.RIGHT]).boxes =
        lvl1Data.goals ∧
      lvl1Pair.2.metrics.success = true) := by
  have hrun : solveFrom lvl1Problem lvl1Heur noTimeout 10 {} =
      some (lvl1Pair.1, lvl1Pair.2) := rfl
  refine ⟨hrun, by decide, by decide, ?_⟩
  exact astar_sokoban_solution_reaches_goal lvl1Data.walls lvl1Data.goals
    lvl1Init lvl1Heur noTimeout 10 lvl1Pair.1 lvl1Pair.2 hrun _ _
    (by decide) (by decide)

/-- C2 (witness): the `LEVEL_1` run, where the amended count identity
holds with the success offset. -/
theorem astar_expansion_counts_witness :
    solveFrom lvl1Problem lvl1Heur noTimeout 10 {} =
      some (lvl1Pair.1, lvl1Pair.2) ∧
    (lvl1Pair.2.metrics.nodes_expanded ≤
        lvl1Pair.2.metrics.nodes_generated ∧
      lvl1Pair.1.popped.Nodup ∧
      lvl1Pair.2.metrics.nodes_expanded =
        lvl1Pair.1.explored.card +
          (if lvl1Pair.2.metrics.success = true then 1 else 0)) := by
  have hrun : solveFrom lvl1Problem lvl1Heur noTimeout 10 {} =
      some (lvl1Pair.1, lvl1Pair.2) := rfl
  refine ⟨hrun, ?_⟩
  exact astar_expansion_counts SokobanState SokAction lvl1Problem lvl1Heur
    noTimeout 10 lvl1Pair.1 lvl1Pair.2 hrun

/-- C5 (counterexample).  The corridor run exhausts its frontier after
three expansions whose branching-factor samples are `[1, 1, 1]` (average
1), yet the returned metrics report `avg_branching_factor = 0`: the
average is only computed on the success return. -/
theorem astar_avg_branching_counterexample :
    solveFrom corrProblem corrHeur noTimeout 10 {} =
      some (corrPair.1, corrPair.2) ∧
    corrPair.1.branching = [1, 1, 1] ∧
    branchingAvg corrPair.1.branching = 1 ∧
    corrPair.2.metrics.avg_branching_factor = 0 ∧
    corrPair.2.metrics.success = false ∧
    corrPair.2.metrics.timeout = false ∧
    branchingAvg corrPair.1.branching ≠
      corrPair.2.metrics.avg_branching_factor := by
  have hb : corrPair.1.branching = [1, 1, 1] := by decide
  have havg : branchingAvg corrPair.1.branching = 1 := by
    rw [hb]
    norm_num [branchingAvg]
  refine ⟨rfl, hb, havg, by decide, by decide, by decide, ?_⟩
  rw [havg, show corrPair.2.metrics.avg_branching_factor = 0 from by decide]
  norm_num

/-- C5 (witness): the corridor run instantiates the failure clause of the
amended statement. -/
theorem astar_avg_branching_factor_witness :
    solveFrom corrProblem corrHeur noTimeout 10 {} =
      some (corrPair.1, corrPair.2) ∧
    corrPair.2.metrics.success = false ∧
    (corrPair.1.branching =
        corrPair.1.popped.map (fun s => (corrProblem.actions s).length) ∧
      corrPair.2.metrics.avg_branching_factor = 0) := by
  have hrun : solveFrom corrProblem corrHeur noTimeout 10 {} =
      some (corrPair.1, corrPair.2) := rfl
  refine ⟨hrun, by decide, ?_⟩
  exact (astar_avg_branching_factor SokobanState SokAction corrProblem
    corrHeur noTimeout 10 corrPair.1 corrPair.2 hrun).1 (by decide)

/-- C9 (witness): the corridor run is an Exhausted outcome: no path, no
actions, `success = False`, `timeout = False`, empty final frontier. -/
theorem astar_outcome_shape_witness :
    solveFrom corrProblem corrHeur noTimeout 10 {} =
      some (corrPair.1, corrPair.2) ∧
    corrPair.2.metrics.success = false ∧
    (((corrPair.2.path = none ∧ corrPair.2.actions = none ∧
          corrPair.2.metrics.success = false) ∨
        (∃ p a, corrPair.2.path = some p ∧ corrPair.2.actions = some a ∧
          corrPair.2.metrics.success = true)) ∧
      ((corrPair.2.metrics.timeout = false ∧ corrPair.1.frontier = []) ∨
        (corrPair.2.metrics.timeout = true ∧ corrPair.1.frontier ≠ []))) := by
  have hrun : solveFrom corrProblem corrHeur noTimeout 10 {} =
      some (corrPair.1, corrPair.2) := rfl
  refine ⟨hrun, by decide, ?_⟩
  have hthm := astar_outcome_shape SokobanState SokAction corrProblem
    corrHeur noTimeout 10 corrPair.1 corrPair.2 hrun
  exact ⟨hthm.1, hthm.2.1 (by decide)⟩

/-- C4 (counterexample).  Calling `solve` twice on the same solver object
(the second call starts from the first call's metrics record): both runs
return the same path and actions, but the second call reports
`nodes_expanded = 4` while the first reported 2 — the counts in the
returned metrics of the two runs are not identical. -/
theorem astar_rerun_metrics_counterexample :
    solveFrom lvl1Problem lvl1Heur noTimeout 10 {} =
      some (lvl1Pair.1, lvl1Pair.2) ∧
    solveFrom lvl1Problem lvl1Heur noTimeout 10 lvl1Pair.2.metrics =
      some (lvl1PairReuse.1, lvl1PairReuse.2) ∧
    lvl1PairReuse.2.path = lvl1Pair.2.path ∧
    lvl1PairReuse.2.actions = lvl1Pair.2.actions ∧
    lvl1Pair.2.metrics.nodes_expanded = 2 ∧
    lvl1PairReuse.2.metrics.nodes_expanded = 4 ∧
    lvl1PairReuse.2.metrics.nodes_expanded ≠
      lvl1Pair.2.metrics.nodes_expanded := by
  refine ⟨rfl, rfl, by decide, by decide, by decide, by decide, by decide⟩

/-- C4 (witness): the reuse offset law instantiated on `LEVEL_1` with the
first run's metrics as the starting record. -/
theorem astar_rerun_determinism_witness :
    solveFrom lvl1Problem lvl1Heur noTimeout 10 {} =
      some (lvl1Pair.1, lvl1Pair.2) ∧
    lvl1PairReuse.2.path = lvl1Pair.2.path ∧
    lvl1PairReuse.2.actions = lvl1Pair.2.actions ∧
    lvl1PairReuse.2.metrics.nodes_expanded =
      lvl1Pair.2.metrics.nodes_expanded + lvl1Pair.2.metrics.nodes_expanded ∧
    lvl1PairReuse.2.metrics.nodes_generated =
      lvl1Pair.2.metrics.nodes_generated := by
  have hrun : solveFrom lvl1Problem lvl1Heur noTimeout 10 {} =
      some (lvl1Pair.1, lvl1Pair.2) := rfl
  refine ⟨hrun, ?_⟩
  obtain ⟨st1, r1, hrun1, hp, ha, he, hg⟩ :=
    (astar_rerun_determinism SokobanState SokAction lvl1Problem lvl1Heur
      noTimeout 10).2 lvl1Pair.2.metrics lvl1Pair.1 lvl1Pair.2 hrun
  have hpair : lvl1PairReuse = (st1, r1) := by
    rw [lvl1PairReuse, hrun1]
    rfl
  rw [hpair]
  exact ⟨hp, ha, he, hg⟩

/-- C6 (witness): the three cases of the frontier update exercised on a
tiny instance — a strictly worse recorded `g` is replaced, an
equal-or-better one is kept, and an absent state is appended. -/
theorem frontier_decrease_or_skip_witness :
    ((processAction c6P c6h c6node c6stWorse 1).frontier =
        removeFirstByState c6stWorse.frontier 6 ++
          [(fval c6h (Node.mk 6 (some c6node) (some 1) 1),
            Node.mk 6 (some c6node) (some 1) 1)] ∧
      fsLookup (processAction c6P c6h c6node c6stWorse 1).frontierStates 6 =
        some (1, fval c6h (Node.mk 6 (some c6node) (some 1) 1))) ∧
    ((processAction c6P c6h c6node c6stBetter 1).frontier =
        c6stBetter.frontier ∧
      (processAction c6P c6h c6node c6stBetter 1).frontierStates =
        c6stBetter.frontierStates) ∧
    ((processAction c6P c6h c6node c6stEmpty 1).frontier =
        c6stEmpty.frontier ++
          [(fval c6h (Node.mk 6 (some c6node) (some 1) 1),
            Node.mk 6 (some c6node) (some 1) 1)] ∧
      fsLookup (processAction c6P c6h c6node c6stEmpty 1).frontierStates 6 =
        some (1, fval c6h (Node.mk 6 (some c6node) (some 1) 1))) := by
  have hkeysW : ∀ s, (fsLookup c6stWorse.frontierStates s).isSome = true ↔
      s ∈ c6stWorse.frontier.map entryState := by
    intro s
    by_cases hs : s = 6
    · subst hs
      simp [c6stWorse, fsLookup, entryState, c6node]
    · simp [c6stWorse, fsLookup, entryState, c6node, if_neg (Ne.symm hs), hs]
  have hkeysB : ∀ s, (fsLookup c6stBetter.frontierStates s).isSome = true ↔
      s ∈ c6stBetter.frontier.map entryState := by
    intro s
    by_cases hs : s = 6
    · subst hs
      simp [c6stBetter, fsLookup, entryState, c6node]
    · simp [c6stBetter, fsLookup, entryState, c6node, if_neg (Ne.symm hs), hs]
  have hkeysE : ∀ s, (fsLookup c6stEmpty.frontierStates s).isSome = true ↔
      s ∈ c6stEmpty.frontier.map entryState := by
    intro s
    simp [c6stEmpty, fsLookup]
  refine ⟨?_, ?_, ?_⟩
  · have hthm := (frontier_decrease_or_skip Nat Nat c6P c6h c6node c6stWorse 1
      (by decide) hkeysW (by decide)).1 3 5 rfl
    exact ⟨(hthm.1 (by decide)).1, (hthm.1 (by decide)).2.2⟩
  · have hthm := (frontier_decrease_or_skip Nat Nat c6P c6h c6node c6stBetter 1
      (by decide) hkeysB (by decide)).1 0 5 rfl
    exact hthm.2 (by decide)
  · have hthm := (frontier_decrease_or_skip Nat Nat c6P c6h c6node c6stEmpty 1
      (by decide) hkeysE (by decide)).2 rfl
    exact hthm
